import Mathlib

/-! The channel cache of the Mattermost client (matterclient/channels.go).

A shallow embedding of `vendor/github.com/matterbridge/matterclient/channels.go`.

* Go `string` is modelled by Lean `String` (the two patterns the code replaces,
  `", "` and `" "`, are ASCII, so replacing on characters and on bytes agree on
  every valid UTF-8 string).
* `*Team` pointers are addresses (`Nat`) into a heap `Nat → Team`, so that the
  primary team `m.Team` can alias an entry of `m.OtherTeams`, as it does in the
  client: writes through `m.OtherTeams[idx]` are then seen through `m.Team`.
* The remote server is a deterministic oracle: the reply to a call may depend
  on the whole sequence of calls made before it.  That sequence (the trace) is
  threaded through every operation and is also what counts remote calls.
* Locks and logging have no effect on the values computed and are left out.
* The `for { ... }` retry loops need not terminate (a server may throttle
  forever); they take a fuel argument and return `none` when it runs out.
-/

namespace Matterclient

/-! ## Data model -/

/-- Go `error`, by its message; `nil` is `none : Option Error`. -/
abbrev Error := String

/-- The value `model.ChannelTypeGroup` of the Mattermost model package
(`ChannelType` is a string type there). -/
def ChannelTypeGroup : String := "G"

/-- The fields of `model.Channel` that channels.go reads; the Go field `Type`
is `ChannelType` here, `Type` being a Lean keyword. -/
structure Channel where
  Id : String
  Name : String
  DisplayName : String
  Header : String
  TeamId : String
  ChannelType : String
  deriving DecidableEq, Repr

/-- A team of the client: its id, the channels joined, and the public channels
not joined (`MoreChannels`). -/
structure Team where
  ID : String
  Channels : List Channel
  MoreChannels : List Channel
  deriving DecidableEq, Repr

/-- What channels.go passes on from a `*model.Response`: the metadata that the
rate-limit handler inspects. -/
structure Response where
  StatusCode : Nat
  RetryAfter : Nat
  deriving DecidableEq, Repr

/-- The outcome `(payload, resp, err)` of one remote call: channels.go reads the
payload only when `err == nil`, and the response only when `err != nil`. -/
inductive Reply (α : Type) where
  | ok (payload : α)
  | fail (resp : Response) (err : Error)
  deriving DecidableEq, Repr

/-- One call on `m.Client`, with the arguments channels.go passes that vary. -/
inductive Call where
  | GetChannelsForTeamForUser (teamID userID : String)
  | GetPublicChannelsForTeam (teamID : String) (page perPage : Nat)
  | GetChannelByName (name teamID : String)
  | GetChannelMember (channelID userID : String)
  | AddChannelMember (channelID userID : String)
  | UpdateChannel (channelID header : String)
  | ViewChannel (userID channelID : String)
  deriving DecidableEq, Repr

/-- The calls made so far, oldest first. -/
abbrev Trace := List Call

/-- The remote API behind `m.Client`: each method answers from the calls made
before it and its arguments. -/
structure Remote where
  GetChannelsForTeamForUser : Trace → String → String → Reply (List Channel)
  GetPublicChannelsForTeam : Trace → String → Nat → Nat → Reply (List Channel)
  GetChannelByName : Trace → String → String → Reply Channel
  GetChannelMember : Trace → String → String → Reply Int
  AddChannelMember : Trace → String → String → Reply Unit
  UpdateChannel : Trace → String → String → Reply Unit
  ViewChannel : Trace → String → String → Reply Unit

/-- What surrounds the store: the remote API, the verdict of the client's
`HandleRatelimit` method on a failed call's response (`none`: it slept and the
call is to be retried; `some e`: give up with `e`), and the clock read by
`model.GetMillis`.  `HandleRatelimit` is declared outside channels.go and is a
parameter here. -/
structure Env where
  remote : Remote
  HandleRatelimit : String → Response → Option Error
  GetMillis : Int

/-- The client's store: the team objects by address, the primary team
`m.Team`, the slice `m.OtherTeams`, and `m.User.Id`. -/
structure Client where
  heap : Nat → Team
  Team : Nat
  OtherTeams : List Nat
  UserId : String

/-! ## strings.ReplaceAll and getNormalisedName -/

/-- The scan of `strings.Replace` for a non-empty `old`: left to right, each
non-overlapping occurrence of `old` is replaced by `new`.  `skip` counts the
characters of an occurrence just replaced that are still to be passed over. -/
def replaceScan (old new : List Char) : Nat → List Char → List Char
  | _, [] => []
  | skip + 1, _ :: cs => replaceScan old new skip cs
  | 0, c :: cs =>
    if old.isPrefixOf (c :: cs) then new ++ replaceScan old new (old.length - 1) cs
    else c :: replaceScan old new 0 cs

/-- Go `strings.ReplaceAll(s, old, new)`.  An empty `old` matches before every
character and at the end of the string. -/
def ReplaceAll (s old new : String) : String :=
  if old = new then s
  else if old.data = [] then ⟨new.data ++ s.data.flatMap (fun c => c :: new.data)⟩
  else ⟨replaceScan old.data new.data 0 s.data⟩

/-- Go `getNormalisedName` (channels.go:43-52). -/
def getNormalisedName (channel : Channel) : String :=
  if channel.ChannelType = ChannelTypeGroup then
    let res := ReplaceAll channel.DisplayName ", " "-"
    let res := ReplaceAll res " " "_"
    res
  else
    channel.Name

/-! ## Lookups in the cache -/

/-- The nested loop of the by-ID and by-name lookups,
`for _, t := range teams { for _, channel := range append(t.Channels, t.MoreChannels...) { if p(channel) { return ... } } }`:
the team (by address) and the channel at which the loop returns, if it does. -/
def scanTeams (heap : Nat → Team) (p : Channel → Bool) : List Nat → Option (Nat × Channel)
  | [] => none
  | t :: ts =>
    match ((heap t).Channels ++ (heap t).MoreChannels).find? p with
    | some channel => some (t, channel)
    | none => scanTeams heap p ts

/-- The loop of `GetChannels` (channels.go:19-23): the joined channels of each
team whose ID is not the primary team's are appended to `channels`. -/
def appendOtherChannels (heap : Nat → Team) (primaryID : String) :
    List Nat → List Channel → List Channel
  | [], channels => channels
  | t :: ts, channels =>
    if (heap t).ID ≠ primaryID then
      appendOtherChannels heap primaryID ts (channels ++ (heap t).Channels)
    else appendOtherChannels heap primaryID ts channels

/-- Go `GetChannels` (channels.go:11-26). -/
def GetChannels (m : Client) : List Channel :=
  appendOtherChannels m.heap (m.heap m.Team).ID m.OtherTeams ([] ++ (m.heap m.Team).Channels)

/-- Go `GetChannelHeader` (channels.go:28-41). -/
def GetChannelHeader (m : Client) (channelID : String) : String :=
  match scanTeams m.heap (fun channel => decide (channel.Id = channelID)) m.OtherTeams with
  | some (_, channel) => channel.Header
  | none => ""

/-- The loop of `getChannelIDTeam` (channels.go:74-82): only teams whose ID is
`teamID` are searched. -/
def scanTeam (heap : Nat → Team) (name teamID : String) : List Nat → Option Channel
  | [] => none
  | t :: ts =>
    if (heap t).ID = teamID then
      match ((heap t).Channels ++ (heap t).MoreChannels).find?
          (fun channel => decide (getNormalisedName channel = name)) with
      | some channel => some channel
      | none => scanTeam heap name teamID ts
    else scanTeam heap name teamID ts

/-- Go `getChannelIDTeam` (channels.go:73-92): the cache of the team first, then
one remote `GetChannelByName`, whose failure of any kind gives `""`. -/
def getChannelIDTeam (env : Env) (m : Client) (tr : Trace) (name teamID : String) :
    String × Trace :=
  match scanTeam m.heap name teamID m.OtherTeams with
  | some channel => (channel.Id, tr)
  | none =>
    match env.remote.GetChannelByName tr name teamID with
    | .fail _ _ => ("", tr ++ [Call.GetChannelByName name teamID])
    | .ok channel => (channel.Id, tr ++ [Call.GetChannelByName name teamID])

/-- Go `GetChannelID` (channels.go:54-71). -/
def GetChannelID (env : Env) (m : Client) (tr : Trace) (name teamID : String) :
    String × Trace :=
  if teamID ≠ "" then getChannelIDTeam env m tr name teamID
  else
    match scanTeams m.heap (fun channel => decide (getNormalisedName channel = name))
        m.OtherTeams with
    | some (_, channel) => (channel.Id, tr)
    | none => ("", tr)

/-- Go `GetChannelName` (channels.go:94-111).  Team addresses of the store are
never nil, so the `t == nil` guard is not taken. -/
def GetChannelName (m : Client) (channelID : String) : String :=
  match scanTeams m.heap (fun channel => decide (channel.Id = channelID)) m.OtherTeams with
  | some (_, channel) => getNormalisedName channel
  | none => ""

/-- Go `GetChannelTeamID` (channels.go:113-126). -/
def GetChannelTeamID (m : Client) (id : String) : String :=
  match scanTeams m.heap (fun channel => decide (channel.Id = id))
      (m.OtherTeams ++ [m.Team]) with
  | some (_, channel) => channel.TeamId
  | none => ""

/-- Go `GetMoreChannels` (channels.go:145-155). -/
def GetMoreChannels (m : Client) : List Channel :=
  m.OtherTeams.flatMap (fun t => (m.heap t).MoreChannels)

/-- Go `GetTeamFromChannel` (channels.go:158-185): `channels` is rebuilt for each
team from its joined list followed by its joinable list. -/
def GetTeamFromChannel (m : Client) (channelID : String) : String :=
  match scanTeams m.heap (fun c => decide (c.Id = channelID)) m.OtherTeams with
  | some (t, c) => if c.ChannelType = ChannelTypeGroup then "G" else (m.heap t).ID
  | none => ""

/-- Go `JoinChannel` (channels.go:187-207): the error returned and the trace. -/
def JoinChannel (env : Env) (m : Client) (tr : Trace) (channelID : String) :
    Option Error × Trace :=
  if (m.heap m.Team).Channels.any (fun c => decide (c.Id = channelID)) then (none, tr)
  else
    match env.remote.AddChannelMember tr channelID m.UserId with
    | .fail _ err => (some err, tr ++ [Call.AddChannelMember channelID m.UserId])
    | .ok _ => (none, tr ++ [Call.AddChannelMember channelID m.UserId])

/-! ## Remote calls under the rate-limit retry loop -/

/-- What a retry loop leaves: the payload of the call that succeeded, or the
error with which `HandleRatelimit` gave up. -/
inductive Fetched (α : Type) where
  | ok (payload : α)
  | err (e : Error)
  deriving DecidableEq, Repr

/-- The loop
`for { res, resp, err = call(); if err == nil { break }; if err := m.HandleRatelimit(name, resp); err != nil { return err } }`
around one remote call; `none` when the fuel runs out. -/
def retryLoop {α : Type} (env : Env) (name : String) (call : Call) (ask : Trace → Reply α) :
    Nat → Trace → Option (Fetched α × Trace)
  | 0, _ => none
  | fuel + 1, tr =>
    match ask tr with
    | .ok payload => some (.ok payload, tr ++ [call])
    | .fail resp _ =>
      match env.HandleRatelimit name resp with
      | some e => some (.err e, tr ++ [call])
      | none => retryLoop env name call ask fuel (tr ++ [call])

/-- Go `GetLastViewedAt` (channels.go:128-142). -/
def GetLastViewedAt (env : Env) (m : Client) (fuel : Nat) (tr : Trace) (channelID : String) :
    Option (Int × Trace) :=
  match retryLoop env "GetChannelMember" (Call.GetChannelMember channelID m.UserId)
      (fun t => env.remote.GetChannelMember t channelID m.UserId) fuel tr with
  | none => none
  | some (.ok lastViewedAt, tr1) => some (lastViewedAt, tr1)
  | some (.err _, tr1) => some (env.GetMillis, tr1)

/-! ## Refreshing the cache -/

/-- The loop `for idx, t := range m.OtherTeams { if t.ID == teamID { m.OtherTeams[idx].Channels = mmchannels } }`
(channels.go:229-235), on the heap. -/
def setChannels (teamID : String) (mmchannels : List Channel) :
    (Nat → Team) → List Nat → (Nat → Team)
  | heap, [] => heap
  | heap, t :: ts =>
    if (heap t).ID = teamID then
      setChannels teamID mmchannels
        (Function.update heap t { heap t with Channels := mmchannels }) ts
    else setChannels teamID mmchannels heap ts

/-- The loop `for idx, t := range m.OtherTeams { if t.ID == teamID { m.OtherTeams[idx].MoreChannels = moreChannels } }`
(channels.go:270-276), on the heap. -/
def setMoreChannels (teamID : String) (moreChannels : List Channel) :
    (Nat → Team) → List Nat → (Nat → Team)
  | heap, [] => heap
  | heap, t :: ts =>
    if (heap t).ID = teamID then
      setMoreChannels teamID moreChannels
        (Function.update heap t { heap t with MoreChannels := moreChannels }) ts
    else setMoreChannels teamID moreChannels heap ts

/-- One fetch of a page of public channels under the retry loop
(channels.go:242-251 and 256-267); `max` is 200. -/
def fetchPage (env : Env) (teamID : String) (idx : Nat) (fuel : Nat) (tr : Trace) :
    Option (Fetched (List Channel) × Trace) :=
  retryLoop env "GetPublicChannelsForTeam" (Call.GetPublicChannelsForTeam teamID idx 200)
    (fun t => env.remote.GetPublicChannelsForTeam t teamID idx 200) fuel tr

/-- The loop `for len(mmchannels) > 0 { ... }` (channels.go:253-268): the page
in hand is appended, the page at `idx` is fetched, and only then is `idx`
incremented.  `inner` is the fuel of each retry loop, the first argument the
fuel of this loop.  (`idx` is a Go `int`; it cannot overflow before 2^63
pages have been fetched, and is a `Nat` here.) -/
def pageLoop (env : Env) (teamID : String) (inner : Nat) :
    Nat → List Channel → Nat → List Channel → Trace → Option (Fetched (List Channel) × Trace)
  | 0, mmchannels, _, moreChannels, tr =>
    if mmchannels.length > 0 then none else some (.ok moreChannels, tr)
  | fuel + 1, mmchannels, idx, moreChannels, tr =>
    if mmchannels.length > 0 then
      match fetchPage env teamID idx inner tr with
      | none => none
      | some (.err e, tr1) => some (.err e, tr1)
      | some (.ok page, tr1) =>
        pageLoop env teamID inner fuel page (idx + 1) (moreChannels ++ mmchannels) tr1
    else some (.ok moreChannels, tr)

/-- The first retry loop of `UpdateChannelsTeam` (channels.go:218-227): the
channels of the team that the user has joined. -/
def fetchJoined (env : Env) (m : Client) (fuel : Nat) (tr : Trace) (teamID : String) :
    Option (Fetched (List Channel) × Trace) :=
  retryLoop env "GetChannelsForTeamForUser" (Call.GetChannelsForTeamForUser teamID m.UserId)
    (fun t => env.remote.GetChannelsForTeamForUser t teamID m.UserId) fuel tr

/-- The paged fetch of `UpdateChannelsTeam` (channels.go:237-268): the page at
cursor 0, then the paging loop started with `idx` still 0. -/
def fetchMore (env : Env) (fuel : Nat) (tr : Trace) (teamID : String) :
    Option (Fetched (List Channel) × Trace) :=
  match fetchPage env teamID 0 fuel tr with
  | none => none
  | some (.err e, tr1) => some (.err e, tr1)
  | some (.ok page, tr1) => pageLoop env teamID fuel fuel page 0 [] tr1

/-- The write of channels.go:229-235 on the store: the joined list of every
team of `m.OtherTeams` with ID `teamID` is replaced by `mmchannels`. -/
def replaceTeamChannels (m : Client) (teamID : String) (mmchannels : List Channel) : Client :=
  { m with heap := setChannels teamID mmchannels m.heap m.OtherTeams }

/-- The write of channels.go:270-276 on the store: the joinable list of every
team of `m.OtherTeams` with ID `teamID` is replaced by `moreChannels`. -/
def replaceTeamMoreChannels (m : Client) (teamID : String) (moreChannels : List Channel) :
    Client :=
  { m with heap := setMoreChannels teamID moreChannels m.heap m.OtherTeams }

/-- What an operation that writes the store leaves: the store, the trace and
the error returned (`none` is `nil`). -/
structure Outcome where
  m : Client
  trace : Trace
  err : Option Error

/-- Go `UpdateChannelsTeam` (channels.go:209-279); `none` when a loop runs out
of fuel. -/
def UpdateChannelsTeam (env : Env) (fuel : Nat) (m : Client) (tr : Trace) (teamID : String) :
    Option Outcome :=
  match fetchJoined env m fuel tr teamID with
  | none => none
  | some (.err e, tr1) => some ⟨m, tr1, some e⟩
  | some (.ok mmchannels, tr1) =>
    let m1 := replaceTeamChannels m teamID mmchannels
    match fetchMore env fuel tr1 teamID with
    | none => none
    | some (.err e, tr2) => some ⟨m1, tr2, some e⟩
    | some (.ok moreChannels, tr2) =>
      some ⟨replaceTeamMoreChannels m1 teamID moreChannels, tr2, none⟩

/-- The loop of `UpdateChannels` over `m.OtherTeams` (channels.go:286-294). -/
def updateOthers (env : Env) (fuel : Nat) : Client → Trace → List Nat → Option Outcome
  | m, tr, [] => some ⟨m, tr, none⟩
  | m, tr, t :: ts =>
    if (m.heap t).ID = (m.heap m.Team).ID then updateOthers env fuel m tr ts
    else
      match UpdateChannelsTeam env fuel m tr (m.heap t).ID with
      | none => none
      | some ⟨m1, tr1, some e⟩ => some ⟨m1, tr1, some e⟩
      | some ⟨m1, tr1, none⟩ => updateOthers env fuel m1 tr1 ts

/-- Go `UpdateChannels` (channels.go:281-297). -/
def UpdateChannels (env : Env) (fuel : Nat) (m : Client) (tr : Trace) : Option Outcome :=
  match UpdateChannelsTeam env fuel m tr (m.heap m.Team).ID with
  | none => none
  | some ⟨m1, tr1, some e⟩ => some ⟨m1, tr1, some e⟩
  | some ⟨m1, tr1, none⟩ => updateOthers env fuel m1 tr1 m1.OtherTeams

/-- Go `UpdateChannelHeader` (channels.go:299-308): one remote call, whose
error is only logged.  The function returns nothing; the store and the trace
it leaves are given. -/
def UpdateChannelHeader (env : Env) (m : Client) (tr : Trace) (channelID header : String) :
    Client × Trace :=
  match env.remote.UpdateChannel tr channelID header with
  | .fail _ _ => (m, tr ++ [Call.UpdateChannel channelID header])
  | .ok _ => (m, tr ++ [Call.UpdateChannel channelID header])

/-- Go `UpdateLastViewed` (channels.go:310-327). -/
def UpdateLastViewed (env : Env) (m : Client) (fuel : Nat) (tr : Trace) (channelID : String) :
    Option (Option Error × Trace) :=
  match retryLoop env "ViewChannel" (Call.ViewChannel m.UserId channelID)
      (fun t => env.remote.ViewChannel t m.UserId channelID) fuel tr with
  | none => none
  | some (.ok _, tr1) => some (none, tr1)
  | some (.err e, tr1) => some (some e, tr1)

/-! ## The normalisation as the specification words it -/

/-- The first step of the specified normalisation, read off its words: each
`", "` separator becomes `-`. -/
def commaSpaceToDash : List Char → List Char
  | ',' :: ' ' :: rest => '-' :: commaSpaceToDash rest
  | c :: rest => c :: commaSpaceToDash rest
  | [] => []

/-- The second step of the specified normalisation: each space becomes `_`. -/
def spaceToUnderscore (s : List Char) : List Char :=
  s.map (fun c => if c = ' ' then '_' else c)

/-- Every comma of the string is immediately followed by a space. -/
def commasSpaced : List Char → Bool
  | [] => true
  | [c] => decide (c ≠ ',')
  | c :: d :: rest => (decide (c ≠ ',') || decide (d = ' ')) && commasSpaced (d :: rest)

/-- Every cached channel with the address of the team that caches it, in the
order the specification gives for the scans: teams in store order, each
team's joined list before its joinable list. -/
def cachedChannels (m : Client) : List (Nat × Channel) :=
  m.OtherTeams.flatMap
    (fun t => ((m.heap t).Channels.map (fun c => (t, c))) ++
      ((m.heap t).MoreChannels.map (fun c => (t, c))))

/-! ## The specification's wording of the remaining operations -/

/-- The cached channels of the teams with ID `teamID`, teams in store order,
each team's joined list before its joinable list. -/
def teamChannels (m : Client) (teamID : String) : List Channel :=
  (m.OtherTeams.filter (fun t => decide ((m.heap t).ID = teamID))).flatMap
    (fun t => (m.heap t).Channels ++ (m.heap t).MoreChannels)

/-- The remote answers `ask` with `n` failures on which `HandleRatelimit` says
retry, and then with success carrying `payload`, starting from trace `tr`. -/
def ThrottledThenOk {α : Type} (env : Env) (name : String) (call : Call)
    (ask : Trace → Reply α) (payload : α) : Nat → Trace → Prop
  | 0, tr => ask tr = .ok payload
  | n + 1, tr =>
    (∃ resp err, ask tr = .fail resp err ∧ env.HandleRatelimit name resp = none) ∧
      ThrottledThenOk env name call ask payload n (tr ++ [call])

/-- The store invariant: in the joined list of every team of the store, the
channel ids are pairwise distinct. -/
def JoinedIdsUnique (m : Client) : Prop :=
  ∀ t, t ∈ m.OtherTeams ∨ t = m.Team → ((m.heap t).Channels.map (fun c => c.Id)).Nodup

/-- The ids `UpdateChannels` is specified to refresh, in order: the primary
team's, then those of `m.OtherTeams` that differ from it. -/
def refreshOrder (m : Client) : List String :=
  (m.heap m.Team).ID ::
    (m.OtherTeams.map (fun t => (m.heap t).ID)).filter
      (fun id => decide (id ≠ (m.heap m.Team).ID))

/-- `UpdateChannelsTeam` called on each id of a list in turn, stopping at the
first call that returns an error. -/
def refreshSeq (env : Env) (fuel : Nat) : List String → Client → Trace → Option Outcome
  | [], m, tr => some ⟨m, tr, none⟩
  | id :: ids, m, tr =>
    match UpdateChannelsTeam env fuel m tr id with
    | none => none
    | some ⟨m1, tr1, some e⟩ => some ⟨m1, tr1, some e⟩
    | some ⟨m1, tr1, none⟩ => refreshSeq env fuel ids m1 tr1

/-! ## Example stores and remotes -/

/-- A public channel of team `t1` with the given id, used in the examples. -/
def exChannel (id : String) : Channel := ⟨id, id, id, "", "t1", "O"⟩

/-- A rate-limit handler for the examples: status 429 is throttling, anything
else is given up on. -/
def exHandleRatelimit (_name : String) (resp : Response) : Option Error :=
  if resp.StatusCode = 429 then none else some "StatusCode error"

/-- A remote that answers every call successfully, with empty lists. -/
def exQuietRemote : Remote where
  GetChannelsForTeamForUser := fun _ _ _ => .ok []
  GetPublicChannelsForTeam := fun _ _ _ _ => .ok []
  GetChannelByName := fun _ name _ => .ok (exChannel name)
  GetChannelMember := fun _ _ _ => .ok 0
  AddChannelMember := fun _ _ _ => .ok ()
  UpdateChannel := fun _ _ _ => .ok ()
  ViewChannel := fun _ _ _ => .ok ()

/-- A remote on which `GetChannelByName` is throttled when it is the first call
made, and succeeds with channel `priv1` once a call has been made. -/
def exThrottleOnceRemote : Remote :=
  { exQuietRemote with
    GetChannelByName := fun tr _ _ =>
      if tr = [] then .fail ⟨429, 1⟩ "rate limited" else .ok (exChannel "priv1") }

/-- A store with the single team `t1` (at address 0, also the primary team),
which has joined `town` and can join `off-topic`. -/
def exStore : Client :=
  ⟨fun _ => ⟨"t1", [exChannel "town"], [exChannel "off-topic"]⟩, 0, [0], "u1"⟩

/-- A store with two teams: `t0` (address 0, primary), which has joined a
channel with id `a` and header `old`, and `t1` (address 1), with nothing. -/
def exTwoTeams : Client :=
  ⟨fun a => if a = 0 then ⟨"t0", [⟨"a", "a", "a", "old", "t0", "O"⟩], []⟩ else ⟨"t1", [], []⟩,
    0, [0, 1], "u1"⟩

/-- A remote that never fails and serves the public channels of a team in
three pages of one channel each: `a` at cursor 0, `b` at 1, `c` at 2, and
an empty page from cursor 3 on. -/
def exPagedRemote : Remote :=
  { exQuietRemote with
    GetPublicChannelsForTeam := fun _ _ page _ =>
      .ok (match page with
        | 0 => [exChannel "a"]
        | 1 => [exChannel "b"]
        | 2 => [exChannel "c"]
        | _ => []) }

/-- A store with three teams: the primary team `p` (address 0), team `a`
(address 1), which has joined `old`, and team `b` (address 2). -/
def exThreeTeams : Client :=
  ⟨fun t => if t = 0 then ⟨"p", [], []⟩ else if t = 1 then ⟨"a", [exChannel "old"], []⟩
    else ⟨"b", [], []⟩, 0, [0, 1, 2], "u1"⟩

/-- A remote on which the joined channels of every team can be fetched, and
the public channels of every team but `a`, whose fetch fails with status 500. -/
def exFailingRemote : Remote :=
  { exQuietRemote with
    GetChannelsForTeamForUser := fun _ teamID _ => .ok [exChannel teamID]
    GetPublicChannelsForTeam := fun _ teamID _ _ =>
      if teamID = "a" then .fail ⟨500, 0⟩ "internal error" else .ok [] }

/-- A remote that never fails and reports the same joined channel `dup` twice
for every team. -/
def exDupRemote : Remote :=
  { exQuietRemote with
    GetChannelsForTeamForUser := fun _ _ _ => .ok [exChannel "dup", exChannel "dup"] }

/-- A remote on which `ViewChannel`, `GetChannelMember` and the two channel
fetches are throttled until two calls have been made, and then succeed. -/
def exThrottleTwiceRemote : Remote :=
  { exQuietRemote with
    ViewChannel := fun tr _ _ =>
      if tr.length < 2 then .fail ⟨429, 1⟩ "rate limited" else .ok ()
    GetChannelMember := fun tr _ _ =>
      if tr.length < 2 then .fail ⟨429, 1⟩ "rate limited" else .ok 1700000000000
    GetChannelsForTeamForUser := fun tr _ _ =>
      if tr.length < 2 then .fail ⟨429, 1⟩ "rate limited" else .ok [exChannel "town"]
    GetPublicChannelsForTeam := fun tr _ _ _ =>
      if tr.length < 2 then .fail ⟨429, 1⟩ "rate limited" else .ok [exChannel "off-topic"] }

/-- A remote whose every call fails with status 500 and the given error. -/
def exBrokenRemote (err : Error) : Remote where
  GetChannelsForTeamForUser := fun _ _ _ => .fail ⟨500, 0⟩ err
  GetPublicChannelsForTeam := fun _ _ _ _ => .fail ⟨500, 0⟩ err
  GetChannelByName := fun _ _ _ => .fail ⟨500, 0⟩ err
  GetChannelMember := fun _ _ _ => .fail ⟨500, 0⟩ err
  AddChannelMember := fun _ _ _ => .fail ⟨500, 0⟩ err
  UpdateChannel := fun _ _ _ => .fail ⟨500, 0⟩ err
  ViewChannel := fun _ _ _ => .fail ⟨500, 0⟩ err

/-- A store whose single team `t1` has joined a direct-message channel `dm1`,
which has no `TeamId`, and a channel `x` whose `TeamId` is `t9`. -/
def exForeignStore : Client :=
  ⟨fun _ => ⟨"t1", [⟨"dm1", "dm1", "", "", "", "D"⟩, ⟨"x", "x", "x", "", "t9", "O"⟩], []⟩,
    0, [0], "u1"⟩

/-- A remote that never fails and reports the two joined channels `town` and
`lobby` for every team. -/
def exTwoJoinedRemote : Remote :=
  { exQuietRemote with
    GetChannelsForTeamForUser := fun _ _ _ => .ok [exChannel "town", exChannel "lobby"] }

/-- A store with three teams, the primary team `p` (address 0) and two teams
that both have the ID `a` (addresses 1 and 2). -/
def exSharedIdStore : Client :=
  ⟨fun t => if t = 0 then ⟨"p", [], []⟩ else ⟨"a", [], []⟩, 0, [0, 1, 2], "u1"⟩

/-! # Theorems -/

/-! ## getNormalisedName -/

theorem replaceScan_commaSpace (s : List Char) :
    replaceScan [',', ' '] ['-'] 0 s = commaSpaceToDash s := by
  induction s using commaSpaceToDash.induct with
  | case1 rest ih =>
    simp [replaceScan, commaSpaceToDash, List.isPrefixOf, ih]
  | case2 c rest hne ih =>
    have hp : List.isPrefixOf [',', ' '] (c :: rest) = false := by
      cases rest with
      | nil => simp [List.isPrefixOf]
      | cons d r =>
        simp only [List.isPrefixOf, Bool.and_true, Bool.and_eq_false_imp, beq_iff_eq]
        intro hc
        subst hc
        by_contra hd
        simp only [Bool.not_eq_false, beq_iff_eq] at hd
        exact hne r rfl (by rw [hd])
    rw [replaceScan, if_neg (by simp [hp]), commaSpaceToDash, ih]
    intro r hc hr
    exact hne r hc hr
  | case3 => simp [replaceScan, commaSpaceToDash]

theorem replaceScan_space (s : List Char) :
    replaceScan [' '] ['_'] 0 s = spaceToUnderscore s := by
  induction s with
  | nil => simp [replaceScan, spaceToUnderscore]
  | cons c cs ih =>
    unfold spaceToUnderscore at ih
    by_cases hc : c = ' '
    · subst hc
      simp [replaceScan, spaceToUnderscore, List.isPrefixOf, ih]
    · have hc2 : ¬ ' ' = c := fun h => hc h.symm
      simp [replaceScan, spaceToUnderscore, List.isPrefixOf, ih, hc, hc2]

theorem getNormalisedName_group (c : Channel) (h : c.ChannelType = ChannelTypeGroup) :
    getNormalisedName c = ⟨spaceToUnderscore (commaSpaceToDash c.DisplayName.data)⟩ := by
  have h1 : ¬ (", " : String) = "-" := by decide
  have h2 : ¬ (" " : String) = "_" := by decide
  have h3 : ¬ (", " : String).data = [] := by decide
  have h4 : ¬ (" " : String).data = [] := by decide
  simp only [getNormalisedName, if_pos h, ReplaceAll, if_neg h1, if_neg h2, if_neg h3, if_neg h4]
  show String.mk (replaceScan [' '] ['_'] 0 (replaceScan [',', ' '] ['-'] 0 c.DisplayName.data)) = _
  rw [replaceScan_commaSpace, replaceScan_space]

theorem space_not_mem_spaceToUnderscore (s : List Char) : ' ' ∉ spaceToUnderscore s := by
  intro h
  simp only [spaceToUnderscore, List.mem_map] at h
  obtain ⟨a, _, ha⟩ := h
  by_cases hs : a = ' '
  · rw [if_pos hs] at ha
    exact absurd ha (by decide)
  · rw [if_neg hs] at ha
    exact hs ha

theorem comma_mem_spaceToUnderscore (s : List Char) (h : ',' ∈ spaceToUnderscore s) :
    ',' ∈ s := by
  simp only [spaceToUnderscore, List.mem_map] at h
  obtain ⟨a, hmem, ha⟩ := h
  by_cases hs : a = ' '
  · rw [if_pos hs] at ha
    exact absurd ha (by decide)
  · rw [if_neg hs] at ha
    exact ha ▸ hmem

theorem commasSpaced_tail (c : Char) (rest : List Char) (h : commasSpaced (c :: rest) = true) :
    commasSpaced rest = true := by
  cases rest with
  | nil => rfl
  | cons d r =>
    simp only [commasSpaced, Bool.and_eq_true] at h
    exact h.2

theorem comma_not_mem_commaSpaceToDash (s : List Char) (h : commasSpaced s = true) :
    ',' ∉ commaSpaceToDash s := by
  induction s using commaSpaceToDash.induct with
  | case1 rest ih =>
    have hr : commasSpaced rest = true :=
      commasSpaced_tail _ _ (commasSpaced_tail _ _ h)
    simp only [commaSpaceToDash, List.mem_cons, not_or]
    exact ⟨by decide, ih hr⟩
  | case2 c rest hne ih =>
    have hr : commasSpaced rest = true := commasSpaced_tail _ _ h
    have hc : ¬ ',' = c := by
      intro hc
      subst hc
      cases rest with
      | nil => simp [commasSpaced] at h
      | cons d r =>
        simp only [commasSpaced, Bool.and_eq_true, Bool.or_eq_true, decide_eq_true_eq] at h
        rcases h.1 with h1 | h1
        · exact h1 rfl
        · exact hne r rfl (by rw [h1])
    rw [commaSpaceToDash]
    · simp only [List.mem_cons, not_or]
      exact ⟨hc, ih hr⟩
    · intro r hc2 hr2
      exact hne r hc2 hr2
  | case3 => simp [commaSpaceToDash]

/-- C3: for a group-DM channel, `getNormalisedName` is the display name with
each `", "` replaced by `-` and then each remaining space replaced by `_`; the
raw name plays no part, and display name `"A, B C"` gives `"A-B_C"`. -/
theorem getNormalisedName_group_spec (c : Channel) (h : c.ChannelType = ChannelTypeGroup) :
    getNormalisedName c = ⟨spaceToUnderscore (commaSpaceToDash c.DisplayName.data)⟩ ∧
    (∀ name : String, getNormalisedName { c with Name := name } = getNormalisedName c) ∧
    (c.DisplayName = "A, B C" → getNormalisedName c = "A-B_C") := by
  refine ⟨getNormalisedName_group c h, ?_, ?_⟩
  · intro name
    simp only [getNormalisedName, if_pos h]
  · intro hd
    rw [getNormalisedName_group c h, hd]
    decide

theorem getNormalisedName_group_spec_witness :
    getNormalisedName ⟨"c1", "8f2a", "A, B C", "", "", "G"⟩ = "A-B_C" :=
  (getNormalisedName_group_spec ⟨"c1", "8f2a", "A, B C", "", "", "G"⟩ rfl).2.2 rfl

/-- C4 (as stated, refuted): a group-DM channel whose display name contains
`", "` and spaces, and whose normalised name still contains a comma. -/
theorem getNormalisedName_keeps_lone_comma :
    (getNormalisedName ⟨"c1", "8f2a", "A,B, C D", "", "", "G"⟩ = "A,B-C_D") ∧
    ',' ∈ (getNormalisedName ⟨"c1", "8f2a", "A,B, C D", "", "", "G"⟩).data ∧
    [',', ' '] <:+: ("A,B, C D" : String).data ∧ ' ' ∈ ("A,B, C D" : String).data := by
  refine ⟨by decide, by decide, ⟨"A,B".data, "C D".data, by decide⟩, by decide⟩

/-- C4 (amended): the normalised name of a group-DM channel contains no space,
and contains no comma when every comma of the display name is immediately
followed by a space. -/
theorem getNormalisedName_group_no_space (c : Channel) (h : c.ChannelType = ChannelTypeGroup) :
    ' ' ∉ (getNormalisedName c).data ∧
    (commasSpaced c.DisplayName.data = true → ',' ∉ (getNormalisedName c).data) := by
  rw [getNormalisedName_group c h]
  refine ⟨space_not_mem_spaceToUnderscore _, ?_⟩
  intro hs hmem
  exact comma_not_mem_commaSpaceToDash _ hs (comma_mem_spaceToUnderscore _ hmem)

theorem getNormalisedName_group_no_space_witness :
    ' ' ∉ (getNormalisedName ⟨"c1", "8f2a", "A, B C", "", "", "G"⟩).data ∧
    ',' ∉ (getNormalisedName ⟨"c1", "8f2a", "A, B C", "", "", "G"⟩).data :=
  ⟨(getNormalisedName_group_no_space ⟨"c1", "8f2a", "A, B C", "", "", "G"⟩ rfl).1,
   (getNormalisedName_group_no_space ⟨"c1", "8f2a", "A, B C", "", "", "G"⟩ rfl).2 (by decide)⟩

/-- C5: for a channel that is not of group-DM type, `getNormalisedName` is the
raw `Name`, whatever the display name. -/
theorem getNormalisedName_other (c : Channel) (h : c.ChannelType ≠ ChannelTypeGroup) :
    getNormalisedName c = c.Name := by
  simp only [getNormalisedName, if_neg h]

theorem getNormalisedName_other_witness :
    getNormalisedName ⟨"c2", "town-square", "Town, Square A", "", "t1", "O"⟩ = "town-square" :=
  getNormalisedName_other ⟨"c2", "town-square", "Town, Square A", "", "t1", "O"⟩ (by decide)

/-! ## Lookups -/

theorem find_pair_map (t : Nat) (p : Channel → Bool) (l : List Channel) :
    (l.map (fun c => (t, c))).find? (fun tc => p tc.2) = (l.find? p).map (fun c => (t, c)) := by
  induction l with
  | nil => rfl
  | cons a l ih =>
    by_cases ha : p a = true
    · simp [List.find?, ha]
    · simp only [Bool.not_eq_true] at ha
      simp [List.find?, ha, ih]

theorem scanTeams_eq_find (heap : Nat → Team) (p : Channel → Bool) (ts : List Nat) :
    scanTeams heap p ts =
      (ts.flatMap (fun t => ((heap t).Channels.map (fun c => (t, c))) ++
        ((heap t).MoreChannels.map (fun c => (t, c))))).find? (fun tc => p tc.2) := by
  induction ts with
  | nil => rfl
  | cons t ts ih =>
    rw [List.flatMap_cons, List.find?_append, ← List.map_append, find_pair_map, scanTeams]
    cases h : ((heap t).Channels ++ (heap t).MoreChannels).find? p with
    | none => simpa using ih
    | some c => simp

/-- C8 (as stated, refuted): team `t1` caches a direct-message channel with no
`TeamId` and a channel whose `TeamId` is `t9`; for both ids
`GetTeamFromChannel` returns `t1`, the ID of the team caching them, not the
team id the channel itself carries (which `GetChannelTeamID` returns). -/
theorem GetTeamFromChannel_ignores_TeamId :
    GetTeamFromChannel exForeignStore "dm1" = "t1" ∧
    GetChannelTeamID exForeignStore "dm1" = "" ∧
    GetTeamFromChannel exForeignStore "x" = "t1" ∧
    GetChannelTeamID exForeignStore "x" = "t9" := by
  decide

/-- C8 (amended): `GetTeamFromChannel` consults the first cached channel with the
given id (teams in store order, joined list before joinable list); it returns
`"G"` when that channel is of group-DM type, otherwise the ID of the team in
whose list the channel is cached, whatever the channel's own `TeamId`, and
`""` when no cached channel has the id. -/
theorem GetTeamFromChannel_spec (m : Client) (channelID : String) :
    GetTeamFromChannel m channelID =
      match (cachedChannels m).find? (fun tc => decide (tc.2.Id = channelID)) with
      | none => ""
      | some (t, c) => if c.ChannelType = ChannelTypeGroup then "G" else (m.heap t).ID := by
  unfold GetTeamFromChannel cachedChannels
  rw [scanTeams_eq_find m.heap (fun c => decide (c.Id = channelID))]
  generalize List.find? _ _ = r
  rcases r with _ | ⟨t, c⟩ <;> rfl

/-- C10: with an empty `teamID`, `GetChannelID` makes no remote call and
returns the Id of the first cached channel whose normalised name is `name`
(teams in store order, joined list before joinable list), or `""`. -/
theorem GetChannelID_noTeam_spec (env : Env) (m : Client) (tr : Trace) (name : String) :
    GetChannelID env m tr name "" =
      (match (cachedChannels m).find? (fun tc => decide (getNormalisedName tc.2 = name)) with
       | none => ""
       | some (_, c) => c.Id, tr) := by
  unfold GetChannelID cachedChannels
  rw [if_neg (by simp), scanTeams_eq_find m.heap (fun c => decide (getNormalisedName c = name))]
  generalize List.find? _ _ = r
  rcases r with _ | ⟨t, c⟩ <;> rfl

theorem scanTeam_eq_none (heap : Nat → Team) (name teamID : String) (ts : List Nat)
    (h : ∀ t ∈ ts, (heap t).ID = teamID →
      ∀ c ∈ (heap t).Channels ++ (heap t).MoreChannels, getNormalisedName c ≠ name) :
    scanTeam heap name teamID ts = none := by
  induction ts with
  | nil => rfl
  | cons t ts ih =>
    have ih2 := ih (fun u hu => h u (List.mem_cons_of_mem _ hu))
    unfold scanTeam
    by_cases hid : (heap t).ID = teamID
    · have hnone : ((heap t).Channels ++ (heap t).MoreChannels).find?
          (fun channel => decide (getNormalisedName channel = name)) = none := by
        rw [List.find?_eq_none]
        intro c hc
        simpa using h t (List.mem_cons_self _ _) hid c hc
      rw [if_pos hid, hnone]
      exact ih2
    · rw [if_neg hid]
      exact ih2

/-- C6 (as stated, refuted): the by-name lookup is throttled once and would
succeed with `priv1` on a second try, yet `GetChannelID` returns `""` after a
single remote call. -/
theorem GetChannelID_gives_up_when_throttled :
    exThrottleOnceRemote.GetChannelByName [] "secret" "t1" = .fail ⟨429, 1⟩ "rate limited" ∧
    exHandleRatelimit "GetChannelByName" ⟨429, 1⟩ = none ∧
    exThrottleOnceRemote.GetChannelByName [Call.GetChannelByName "secret" "t1"] "secret" "t1"
      = .ok (exChannel "priv1") ∧
    GetChannelID ⟨exThrottleOnceRemote, exHandleRatelimit, 0⟩ exStore [] "secret" "t1"
      = ("", [Call.GetChannelByName "secret" "t1"]) := by
  decide

/-- C6 (amended): with a non-empty `teamID` and a name that the team's cached
lists do not hold, `GetChannelID` makes the remote by-name lookup exactly once,
outside the retry loop: it returns the fetched channel's Id when the call
succeeds and `""` when it fails in any way, throttling included. -/
theorem GetChannelID_fallback_once (env : Env) (m : Client) (tr : Trace)
    (name teamID : String) (hT : teamID ≠ "")
    (hmiss : ∀ t ∈ m.OtherTeams, (m.heap t).ID = teamID →
      ∀ c ∈ (m.heap t).Channels ++ (m.heap t).MoreChannels, getNormalisedName c ≠ name) :
    GetChannelID env m tr name teamID =
      (match env.remote.GetChannelByName tr name teamID with
       | .ok c => c.Id
       | .fail _ _ => "",
       tr ++ [Call.GetChannelByName name teamID]) := by
  unfold GetChannelID getChannelIDTeam
  rw [if_pos hT, scanTeam_eq_none m.heap name teamID m.OtherTeams hmiss]
  cases env.remote.GetChannelByName tr name teamID <;> rfl

theorem GetChannelID_fallback_once_witness :
    GetChannelID ⟨exQuietRemote, exHandleRatelimit, 0⟩ exStore [] "secret" "t1"
      = ("secret", [Call.GetChannelByName "secret" "t1"]) :=
  GetChannelID_fallback_once ⟨exQuietRemote, exHandleRatelimit, 0⟩ exStore [] "secret" "t1"
    (by decide) (by decide)

/-- C7: `JoinChannel` with the id of a channel in the primary team's joined
list returns nil without any remote call, also when called again; with any
other id it makes exactly one `AddChannelMember` call and returns its error. -/
theorem JoinChannel_spec (env : Env) (m : Client) (tr : Trace) (channelID : String) :
    ((∃ c ∈ (m.heap m.Team).Channels, c.Id = channelID) →
      JoinChannel env m tr channelID = (none, tr) ∧
      JoinChannel env m (JoinChannel env m tr channelID).2 channelID = (none, tr)) ∧
    ((¬ ∃ c ∈ (m.heap m.Team).Channels, c.Id = channelID) →
      JoinChannel env m tr channelID =
        (match env.remote.AddChannelMember tr channelID m.UserId with
         | .ok _ => none
         | .fail _ err => some err,
         tr ++ [Call.AddChannelMember channelID m.UserId])) := by
  constructor
  · intro h
    have hany : (m.heap m.Team).Channels.any (fun c => decide (c.Id = channelID)) = true := by
      simpa using h
    have h1 : JoinChannel env m tr channelID = (none, tr) := by
      unfold JoinChannel
      rw [if_pos hany]
    rw [h1]
    exact ⟨rfl, h1⟩
  · intro h
    have hany : ¬ (m.heap m.Team).Channels.any (fun c => decide (c.Id = channelID)) = true := by
      simpa using h
    unfold JoinChannel
    rw [if_neg hany]
    cases env.remote.AddChannelMember tr channelID m.UserId <;> rfl

theorem JoinChannel_spec_witness :
    (JoinChannel ⟨exQuietRemote, exHandleRatelimit, 0⟩ exStore [] "town" = (none, []) ∧
      JoinChannel ⟨exQuietRemote, exHandleRatelimit, 0⟩ exStore
        (JoinChannel ⟨exQuietRemote, exHandleRatelimit, 0⟩ exStore [] "town").2 "town"
        = (none, [])) ∧
    JoinChannel ⟨exQuietRemote, exHandleRatelimit, 0⟩ exStore [] "off-topic"
      = (none, [Call.AddChannelMember "off-topic" "u1"]) :=
  ⟨(JoinChannel_spec ⟨exQuietRemote, exHandleRatelimit, 0⟩ exStore [] "town").1
      ⟨exChannel "town", by decide, by decide⟩,
   (JoinChannel_spec ⟨exQuietRemote, exHandleRatelimit, 0⟩ exStore [] "off-topic").2
      (by decide)⟩

/-! ## Writes to the store -/

theorem setChannels_apply (teamID : String) (cs : List Channel) (heap : Nat → Team)
    (ts : List Nat) (t : Nat) :
    setChannels teamID cs heap ts t =
      if t ∈ ts ∧ (heap t).ID = teamID then { heap t with Channels := cs } else heap t := by
  induction ts generalizing heap with
  | nil => simp [setChannels]
  | cons a ts ih =>
    unfold setChannels
    by_cases ha : (heap a).ID = teamID
    · rw [if_pos ha, ih]
      by_cases hta : t = a
      · subst hta
        simp [Function.update_same, ha]
      · simp [Function.update_noteq hta, hta]
    · rw [if_neg ha, ih]
      by_cases hta : t = a
      · subst hta
        simp [ha]
      · simp [hta]

theorem setMoreChannels_apply (teamID : String) (cs : List Channel) (heap : Nat → Team)
    (ts : List Nat) (t : Nat) :
    setMoreChannels teamID cs heap ts t =
      if t ∈ ts ∧ (heap t).ID = teamID then { heap t with MoreChannels := cs } else heap t := by
  induction ts generalizing heap with
  | nil => simp [setMoreChannels]
  | cons a ts ih =>
    unfold setMoreChannels
    by_cases ha : (heap a).ID = teamID
    · rw [if_pos ha, ih]
      by_cases hta : t = a
      · subst hta
        simp [Function.update_same, ha]
      · simp [Function.update_noteq hta, hta]
    · rw [if_neg ha, ih]
      by_cases hta : t = a
      · subst hta
        simp [ha]
      · simp [hta]

theorem scanTeams_found (heap : Nat → Team) (p : Channel → Bool) (c : Channel)
    (pre post : List Nat) (T : Nat)
    (hpre : ∀ t ∈ pre, ((heap t).Channels ++ (heap t).MoreChannels).find? p = none ∨
      ((heap t).Channels ++ (heap t).MoreChannels).find? p = some c)
    (hT : ((heap T).Channels ++ (heap T).MoreChannels).find? p = some c) :
    ∃ t, scanTeams heap p (pre ++ T :: post) = some (t, c) := by
  induction pre with
  | nil => exact ⟨T, by simp [scanTeams, hT]⟩
  | cons a pre ih =>
    rcases hpre a (List.mem_cons_self _ _) with h | h
    · obtain ⟨t, ht⟩ := ih (fun u hu => hpre u (List.mem_cons_of_mem _ hu))
      exact ⟨t, by simp only [List.cons_append, scanTeams, h]; exact ht⟩
    · exact ⟨a, by simp only [List.cons_append, scanTeams, h]⟩

theorem scanTeams_eq_none (heap : Nat → Team) (p : Channel → Bool) (ts : List Nat)
    (h : ∀ t ∈ ts, ∀ c ∈ (heap t).Channels ++ (heap t).MoreChannels, p c = false) :
    scanTeams heap p ts = none := by
  induction ts with
  | nil => rfl
  | cons a ts ih =>
    have hnone : ((heap a).Channels ++ (heap a).MoreChannels).find? p = none := by
      rw [List.find?_eq_none]
      intro c hc
      simp [h a (List.mem_cons_self _ _) c hc]
    simp only [scanTeams, hnone]
    exact ih (fun u hu => h u (List.mem_cons_of_mem _ hu))

/-- After the write, a team with ID `teamID` other than those in `m.OtherTeams`
is untouched, and one in `m.OtherTeams` has joined list `cs` and its old
joinable list. -/
theorem replaceTeamChannels_heap (m : Client) (teamID : String) (cs : List Channel) (t : Nat) :
    (replaceTeamChannels m teamID cs).heap t =
      if t ∈ m.OtherTeams ∧ (m.heap t).ID = teamID then { m.heap t with Channels := cs }
      else m.heap t :=
  setChannels_apply teamID cs m.heap m.OtherTeams t

theorem scan_after_replace (m : Client) (teamID : String) (c1 c2 c : Channel)
    (p : Channel → Bool) (pre post : List Nat) (T : Nat)
    (hO : m.OtherTeams = pre ++ T :: post) (hT : (m.heap T).ID = teamID)
    (hp : ([c1, c2] : List Channel).find? p = some c)
    (hpre : ∀ t ∈ pre, (m.heap t).ID ≠ teamID →
      ∀ d ∈ (m.heap t).Channels ++ (m.heap t).MoreChannels, p d = false) :
    ∃ t, scanTeams (replaceTeamChannels m teamID [c1, c2]).heap p m.OtherTeams = some (t, c) := by
  have hfind : ∀ more : List Channel, ([c1, c2] ++ more).find? p = some c := by
    intro more
    rw [List.find?_append, hp]
    rfl
  rw [hO]
  apply scanTeams_found
  · intro t ht
    have hmem : t ∈ m.OtherTeams := by rw [hO]; exact List.mem_append_left _ ht
    rw [replaceTeamChannels_heap]
    by_cases hid : (m.heap t).ID = teamID
    · right
      rw [if_pos ⟨hmem, hid⟩]
      exact hfind _
    · left
      rw [if_neg (fun h => hid h.2), List.find?_eq_none]
      intro d hd
      simp [hpre t ht hid d hd]
  · have hmem : T ∈ m.OtherTeams := by rw [hO]; simp
    rw [replaceTeamChannels_heap, if_pos ⟨hmem, hT⟩]
    exact hfind _

/-- C9 (as stated, refuted): after team `t1` has its joined list replaced by
`[b, c]`, the id `off-topic` of its joinable list is neither `b` nor `c` and
is still found; and a channel with id `a` cached by the earlier team `t0` is
the one found for `a` after `t1` has its joined list replaced by `[a, c]`. -/
theorem lookup_after_replace_finds_others :
    GetChannelName (replaceTeamChannels exStore "t1" [exChannel "b", exChannel "c"]) "off-topic"
      = "off-topic" ∧
    "off-topic" ≠ (exChannel "b").Id ∧ "off-topic" ≠ (exChannel "c").Id ∧
    GetChannelHeader
      (replaceTeamChannels exTwoTeams "t1" [⟨"a", "a", "a", "new", "t1", "O"⟩, exChannel "c"]) "a"
      = "old" := by
  decide

/-- C9 (amended): after the joined list of team `T` is replaced by `[c1, c2]`,
`GetChannelName` and `GetChannelHeader` find `c1` for its id when no team with
another ID before `T` in store order caches that id, find `c2` for its id under
the same condition when `c2.Id ≠ c1.Id`, and return `""` for any other id
that is cached neither in a joinable list nor in the joined list of a team
with another ID. -/
theorem lookups_after_replaceTeamChannels (m : Client) (teamID : String) (c1 c2 : Channel)
    (pre post : List Nat) (T : Nat)
    (hO : m.OtherTeams = pre ++ T :: post) (hT : (m.heap T).ID = teamID) :
    ((∀ t ∈ pre, (m.heap t).ID ≠ teamID →
        ∀ d ∈ (m.heap t).Channels ++ (m.heap t).MoreChannels, d.Id ≠ c1.Id) →
      GetChannelName (replaceTeamChannels m teamID [c1, c2]) c1.Id = getNormalisedName c1 ∧
      GetChannelHeader (replaceTeamChannels m teamID [c1, c2]) c1.Id = c1.Header) ∧
    (c2.Id ≠ c1.Id →
      (∀ t ∈ pre, (m.heap t).ID ≠ teamID →
        ∀ d ∈ (m.heap t).Channels ++ (m.heap t).MoreChannels, d.Id ≠ c2.Id) →
      GetChannelName (replaceTeamChannels m teamID [c1, c2]) c2.Id = getNormalisedName c2 ∧
      GetChannelHeader (replaceTeamChannels m teamID [c1, c2]) c2.Id = c2.Header) ∧
    (∀ id : String, id ≠ c1.Id → id ≠ c2.Id →
      (∀ t ∈ m.OtherTeams, (∀ d ∈ (m.heap t).MoreChannels, d.Id ≠ id) ∧
        ((m.heap t).ID ≠ teamID → ∀ d ∈ (m.heap t).Channels, d.Id ≠ id)) →
      GetChannelName (replaceTeamChannels m teamID [c1, c2]) id = "" ∧
      GetChannelHeader (replaceTeamChannels m teamID [c1, c2]) id = "") := by
  refine ⟨?_, ?_, ?_⟩
  · intro hpre
    obtain ⟨t, ht⟩ := scan_after_replace m teamID c1 c2 c1 (fun c => decide (c.Id = c1.Id))
      pre post T hO hT (by simp [List.find?]) (fun t ht hid d hd => by simpa using hpre t ht hid d hd)
    have ht2 : scanTeams (replaceTeamChannels m teamID [c1, c2]).heap
        (fun c => decide (c.Id = c1.Id)) (replaceTeamChannels m teamID [c1, c2]).OtherTeams
        = some (t, c1) := ht
    simp only [GetChannelName, GetChannelHeader, ht2, and_self]
  · intro hne hpre
    obtain ⟨t, ht⟩ := scan_after_replace m teamID c1 c2 c2 (fun c => decide (c.Id = c2.Id))
      pre post T hO hT
      (by
        have hd : decide (c1.Id = c2.Id) = false := decide_eq_false (fun h => hne (Eq.symm h))
        simp [List.find?, hd])
      (fun t ht hid d hd => by simpa using hpre t ht hid d hd)
    have ht2 : scanTeams (replaceTeamChannels m teamID [c1, c2]).heap
        (fun c => decide (c.Id = c2.Id)) (replaceTeamChannels m teamID [c1, c2]).OtherTeams
        = some (t, c2) := ht
    simp only [GetChannelName, GetChannelHeader, ht2, and_self]
  · intro id h1 h2 hall
    have hnone : scanTeams (replaceTeamChannels m teamID [c1, c2]).heap
        (fun c => decide (c.Id = id)) (replaceTeamChannels m teamID [c1, c2]).OtherTeams
        = none := by
      apply scanTeams_eq_none
      intro t ht d hd
      have ht1 : t ∈ m.OtherTeams := ht
      rw [replaceTeamChannels_heap] at hd
      by_cases hid : (m.heap t).ID = teamID
      · rw [if_pos ⟨ht1, hid⟩] at hd
        simp only [List.mem_append, List.mem_cons, List.mem_singleton, List.not_mem_nil,
          or_false] at hd
        rcases hd with (hd | hd) | hd
        · subst hd; simpa using fun h => h1 (Eq.symm h)
        · subst hd; simpa using fun h => h2 (Eq.symm h)
        · simpa using (hall t ht1).1 d hd
      · rw [if_neg (fun h => hid h.2)] at hd
        rcases List.mem_append.mp hd with hd | hd
        · simpa using (hall t ht1).2 hid d hd
        · simpa using (hall t ht1).1 d hd
    simp only [GetChannelName, GetChannelHeader, hnone, and_self]

theorem lookups_after_replaceTeamChannels_witness :
    (GetChannelName
        (replaceTeamChannels exTwoTeams "t1" [⟨"b", "b", "B", "hb", "t1", "O"⟩, exChannel "c"]) "b"
        = "b" ∧
      GetChannelHeader
        (replaceTeamChannels exTwoTeams "t1" [⟨"b", "b", "B", "hb", "t1", "O"⟩, exChannel "c"]) "b"
        = "hb") ∧
    (GetChannelName
        (replaceTeamChannels exTwoTeams "t1" [⟨"b", "b", "B", "hb", "t1", "O"⟩, exChannel "c"]) "c"
        = "c" ∧
      GetChannelHeader
        (replaceTeamChannels exTwoTeams "t1" [⟨"b", "b", "B", "hb", "t1", "O"⟩, exChannel "c"]) "c"
        = "") ∧
    (GetChannelName
        (replaceTeamChannels exTwoTeams "t1" [⟨"b", "b", "B", "hb", "t1", "O"⟩, exChannel "c"]) "z"
        = "" ∧
      GetChannelHeader
        (replaceTeamChannels exTwoTeams "t1" [⟨"b", "b", "B", "hb", "t1", "O"⟩, exChannel "c"]) "z"
        = "") :=
  ⟨(lookups_after_replaceTeamChannels exTwoTeams "t1" ⟨"b", "b", "B", "hb", "t1", "O"⟩
      (exChannel "c") [0] [] 1 rfl rfl).1 (by decide),
   (lookups_after_replaceTeamChannels exTwoTeams "t1" ⟨"b", "b", "B", "hb", "t1", "O"⟩
      (exChannel "c") [0] [] 1 rfl rfl).2.1 (by decide) (by decide),
   (lookups_after_replaceTeamChannels exTwoTeams "t1" ⟨"b", "b", "B", "hb", "t1", "O"⟩
      (exChannel "c") [0] [] 1 rfl rfl).2.2 "z" (by decide) (by decide) (by decide)⟩

/-! ## Refreshing a team -/

theorem retryLoop_ok {α : Type} (env : Env) (name : String) (call : Call)
    (ask : Trace → Reply α) (fuel : Nat) (tr : Trace) (payload : α)
    (h : ask tr = .ok payload) :
    retryLoop env name call ask (fuel + 1) tr = some (.ok payload, tr ++ [call]) := by
  simp only [retryLoop, h]

theorem retryLoop_giveUp {α : Type} (env : Env) (name : String) (call : Call)
    (ask : Trace → Reply α) (fuel : Nat) (tr : Trace) (resp : Response) (err e : Error)
    (h : ask tr = .fail resp err) (hr : env.HandleRatelimit name resp = some e) :
    retryLoop env name call ask (fuel + 1) tr = some (.err e, tr ++ [call]) := by
  simp only [retryLoop, h, hr]

theorem pageLoop_nil (env : Env) (teamID : String) (inner fuel idx : Nat)
    (moreChannels : List Channel) (tr : Trace) :
    pageLoop env teamID inner fuel [] idx moreChannels tr = some (.ok moreChannels, tr) := by
  cases fuel <;> simp [pageLoop]

theorem pageLoop_step (env : Env) (teamID : String) (inner fuel idx : Nat)
    (mmchannels page moreChannels : List Channel) (tr : Trace) (hne : mmchannels ≠ [])
    (h : ∀ t, env.remote.GetPublicChannelsForTeam t teamID idx 200 = .ok page) :
    pageLoop env teamID (inner + 1) (fuel + 1) mmchannels idx moreChannels tr =
      pageLoop env teamID (inner + 1) fuel page (idx + 1) (moreChannels ++ mmchannels)
        (tr ++ [Call.GetPublicChannelsForTeam teamID idx 200]) := by
  have hlen : mmchannels.length > 0 := List.length_pos.mpr hne
  rw [pageLoop, if_pos hlen, fetchPage, retryLoop_ok env _ _ _ inner tr page (h tr)]

/-- Whenever the remote never fails and serves pages `p0`, `p1`, `p2` and then
an empty page, the joinable list stored for the team holds `p0` twice. -/
theorem UpdateChannelsTeam_three_pages (env : Env) (fuel : Nat) (m : Client) (tr : Trace)
    (teamID : String) (joined p0 p1 p2 : List Channel)
    (hJ : ∀ t, env.remote.GetChannelsForTeamForUser t teamID m.UserId = .ok joined)
    (h0 : ∀ t, env.remote.GetPublicChannelsForTeam t teamID 0 200 = .ok p0)
    (h1 : ∀ t, env.remote.GetPublicChannelsForTeam t teamID 1 200 = .ok p1)
    (h2 : ∀ t, env.remote.GetPublicChannelsForTeam t teamID 2 200 = .ok p2)
    (h3 : ∀ t, env.remote.GetPublicChannelsForTeam t teamID 3 200 = .ok [])
    (n0 : p0 ≠ []) (n1 : p1 ≠ []) (n2 : p2 ≠ []) :
    ∃ o, UpdateChannelsTeam env (fuel + 4) m tr teamID = some o ∧ o.err = none ∧
      ∀ t ∈ m.OtherTeams, (m.heap t).ID = teamID →
        (o.m.heap t).MoreChannels = p0 ++ p0 ++ p1 ++ p2 := by
  have hmore : ∀ t, fetchMore env (fuel + 4) t teamID =
      some (.ok (p0 ++ p0 ++ p1 ++ p2),
        t ++ [Call.GetPublicChannelsForTeam teamID 0 200] ++
          [Call.GetPublicChannelsForTeam teamID 0 200] ++
          [Call.GetPublicChannelsForTeam teamID 1 200] ++
          [Call.GetPublicChannelsForTeam teamID 2 200] ++
          [Call.GetPublicChannelsForTeam teamID 3 200]) := by
    intro t
    rw [fetchMore, fetchPage, retryLoop_ok env _ _ _ (fuel + 3) t p0 (h0 t)]
    simp only
    rw [pageLoop_step env teamID (fuel + 3) (fuel + 3) 0 p0 p0 [] _ n0 h0,
      pageLoop_step env teamID (fuel + 3) (fuel + 2) 1 p0 p1 _ _ n0 h1,
      pageLoop_step env teamID (fuel + 3) (fuel + 1) 2 p1 p2 _ _ n1 h2,
      pageLoop_step env teamID (fuel + 3) fuel 3 p2 [] _ _ n2 h3, pageLoop_nil]
    simp
  have hU : UpdateChannelsTeam env (fuel + 4) m tr teamID =
      some ⟨replaceTeamMoreChannels (replaceTeamChannels m teamID joined) teamID
          (p0 ++ p0 ++ p1 ++ p2),
        tr ++ [Call.GetChannelsForTeamForUser teamID m.UserId] ++
          [Call.GetPublicChannelsForTeam teamID 0 200] ++
          [Call.GetPublicChannelsForTeam teamID 0 200] ++
          [Call.GetPublicChannelsForTeam teamID 1 200] ++
          [Call.GetPublicChannelsForTeam teamID 2 200] ++
          [Call.GetPublicChannelsForTeam teamID 3 200], none⟩ := by
    rw [UpdateChannelsTeam, fetchJoined, retryLoop_ok env _ _ _ (fuel + 3) tr joined (hJ tr)]
    simp only [hmore]
  refine ⟨_, hU, rfl, ?_⟩
  intro t ht hid
  have hid2 : ((replaceTeamChannels m teamID joined).heap t).ID = teamID := by
    rw [replaceTeamChannels_heap, if_pos ⟨ht, hid⟩]
    exact hid
  show (setMoreChannels teamID _ (replaceTeamChannels m teamID joined).heap
    m.OtherTeams t).MoreChannels = _
  rw [setMoreChannels_apply, if_pos ⟨ht, hid2⟩]

/-- C1 (the code at a failing input): with pages `[a]`, `[b]`, `[c]` and then
an empty page, `UpdateChannelsTeam` returns nil and stores `[a, a, b, c]` as the
joinable list, after requesting cursor 0 twice. -/
theorem UpdateChannelsTeam_fetches_first_page_twice :
    (UpdateChannelsTeam ⟨exPagedRemote, exHandleRatelimit, 0⟩ 4 exStore [] "t1").map
        (fun o => (o.err, (o.m.heap 0).MoreChannels, o.trace)) =
      some (none, [exChannel "a", exChannel "a", exChannel "b", exChannel "c"],
        [Call.GetChannelsForTeamForUser "t1" "u1",
         Call.GetPublicChannelsForTeam "t1" 0 200,
         Call.GetPublicChannelsForTeam "t1" 0 200,
         Call.GetPublicChannelsForTeam "t1" 1 200,
         Call.GetPublicChannelsForTeam "t1" 2 200,
         Call.GetPublicChannelsForTeam "t1" 3 200]) := by
  decide

theorem replaceTeamChannels_ID (m : Client) (teamID : String) (cs : List Channel) (t : Nat) :
    ((replaceTeamChannels m teamID cs).heap t).ID = (m.heap t).ID := by
  rw [replaceTeamChannels_heap]
  split <;> rfl

theorem replaceTeamChannels_MoreChannels (m : Client) (teamID : String) (cs : List Channel)
    (t : Nat) :
    ((replaceTeamChannels m teamID cs).heap t).MoreChannels = (m.heap t).MoreChannels := by
  rw [replaceTeamChannels_heap]
  split <;> rfl

theorem replaceTeamChannels_of_ne (m : Client) (teamID : String) (cs : List Channel) (t : Nat)
    (h : (m.heap t).ID ≠ teamID) : (replaceTeamChannels m teamID cs).heap t = m.heap t := by
  rw [replaceTeamChannels_heap, if_neg (fun hh => h hh.2)]

theorem replaceTeamChannels_Channels (m : Client) (teamID : String) (cs : List Channel) (t : Nat)
    (ht : t ∈ m.OtherTeams) (h : (m.heap t).ID = teamID) :
    ((replaceTeamChannels m teamID cs).heap t).Channels = cs := by
  rw [replaceTeamChannels_heap, if_pos ⟨ht, h⟩]

theorem replaceTeamMoreChannels_heap (m : Client) (teamID : String) (cs : List Channel)
    (t : Nat) :
    (replaceTeamMoreChannels m teamID cs).heap t =
      if t ∈ m.OtherTeams ∧ (m.heap t).ID = teamID then { m.heap t with MoreChannels := cs }
      else m.heap t :=
  setMoreChannels_apply teamID cs m.heap m.OtherTeams t

theorem replaceTeamMoreChannels_ID (m : Client) (teamID : String) (cs : List Channel) (t : Nat) :
    ((replaceTeamMoreChannels m teamID cs).heap t).ID = (m.heap t).ID := by
  rw [replaceTeamMoreChannels_heap]
  split <;> rfl

theorem replaceTeamMoreChannels_Channels (m : Client) (teamID : String) (cs : List Channel)
    (t : Nat) :
    ((replaceTeamMoreChannels m teamID cs).heap t).Channels = (m.heap t).Channels := by
  rw [replaceTeamMoreChannels_heap]
  split <;> rfl

theorem replaceTeamMoreChannels_of_ne (m : Client) (teamID : String) (cs : List Channel)
    (t : Nat) (h : (m.heap t).ID ≠ teamID) :
    (replaceTeamMoreChannels m teamID cs).heap t = m.heap t := by
  rw [replaceTeamMoreChannels_heap, if_neg (fun hh => h hh.2)]

theorem replaceTeamMoreChannels_MoreChannels (m : Client) (teamID : String)
    (cs : List Channel) (t : Nat) (ht : t ∈ m.OtherTeams) (h : (m.heap t).ID = teamID) :
    ((replaceTeamMoreChannels m teamID cs).heap t).MoreChannels = cs := by
  rw [replaceTeamMoreChannels_heap, if_pos ⟨ht, h⟩]

/-- The three ways `UpdateChannelsTeam` returns: the joined fetch is given up
(store untouched), the paged fetch is given up (joined lists already written),
or both succeed (both lists written). -/
theorem UpdateChannelsTeam_cases (env : Env) (fuel : Nat) (m : Client) (tr : Trace)
    (teamID : String) (o : Outcome) (h : UpdateChannelsTeam env fuel m tr teamID = some o) :
    (∃ e, fetchJoined env m fuel tr teamID = some (.err e, o.trace) ∧ o.m = m ∧
      o.err = some e) ∨
    (∃ cs tr1 e, fetchJoined env m fuel tr teamID = some (.ok cs, tr1) ∧
      fetchMore env fuel tr1 teamID = some (.err e, o.trace) ∧
      o.m = replaceTeamChannels m teamID cs ∧ o.err = some e) ∨
    (∃ cs tr1 more, fetchJoined env m fuel tr teamID = some (.ok cs, tr1) ∧
      fetchMore env fuel tr1 teamID = some (.ok more, o.trace) ∧
      o.m = replaceTeamMoreChannels (replaceTeamChannels m teamID cs) teamID more ∧
      o.err = none) := by
  unfold UpdateChannelsTeam at h
  rcases hj : fetchJoined env m fuel tr teamID with _ | ⟨f, tr1⟩
  · rw [hj] at h
    exact absurd h (by simp)
  · rw [hj] at h
    rcases f with cs | e
    · simp only at h
      rcases hm : fetchMore env fuel tr1 teamID with _ | ⟨g, tr2⟩
      · rw [hm] at h
        exact absurd h (by simp)
      · rw [hm] at h
        rcases g with more | e
        · simp only [Option.some.injEq] at h
          subst h
          exact Or.inr (Or.inr ⟨cs, tr1, more, rfl, hm, rfl, rfl⟩)
        · simp only [Option.some.injEq] at h
          subst h
          exact Or.inr (Or.inl ⟨cs, tr1, e, rfl, hm, rfl, rfl⟩)
    · simp only [Option.some.injEq] at h
      subst h
      exact Or.inl ⟨e, rfl, rfl, rfl⟩

/-! ## Refreshing every team -/

/-- C2 (as stated, refuted): the refresh of team `a` fails on its public-channel
fetch, after its joined list has been fetched; `UpdateChannels` returns the
error, and the joined list of `a` is no longer what it was before the call. -/
theorem UpdateChannels_abort_leaves_joined_written :
    (UpdateChannels ⟨exFailingRemote, exHandleRatelimit, 0⟩ 2 exThreeTeams []).map
        (fun o => (o.err, (o.m.heap 1).Channels, (o.m.heap 1).MoreChannels,
          (o.m.heap 2).Channels, (o.m.heap 0).Channels)) =
      some (some "StatusCode error", [exChannel "a"], [], [], [exChannel "p"]) ∧
    (exThreeTeams.heap 1).Channels = [exChannel "old"] := by
  decide

/-- C2 (amended): on a store whose teams are `[P, A, B]` with pairwise distinct
IDs, `P` being the primary team, when the refresh of `P` succeeds and the refresh
of `A` is given up with error `e`, `UpdateChannels` returns `e`; the lists of `P`
are those fetched for it in this call, both lists of `B` and the joinable list
of `A` are what they were before the call, and the joined list of `A` is what it
was before the call when its joined fetch was given up, and otherwise the
joined list just fetched for `A`. -/
theorem UpdateChannels_aborts_at_second_team (env : Env) (fuel : Nat) (m : Client) (tr : Trace)
    (P A B : Nat) (o1 : Outcome) (e : Error)
    (hT : m.Team = P) (hO : m.OtherTeams = [P, A, B])
    (hPA : (m.heap P).ID ≠ (m.heap A).ID) (hPB : (m.heap P).ID ≠ (m.heap B).ID)
    (hAB : (m.heap A).ID ≠ (m.heap B).ID)
    (h1 : UpdateChannelsTeam env fuel m tr (m.heap P).ID = some o1) (h1e : o1.err = none)
    (h2 : (UpdateChannelsTeam env fuel o1.m o1.trace (m.heap A).ID).map (fun o => o.err)
      = some (some e)) :
    ∃ o, UpdateChannels env fuel m tr = some o ∧ o.err = some e ∧
      (∃ csP tr1 moreP, fetchJoined env m fuel tr (m.heap P).ID = some (.ok csP, tr1) ∧
        fetchMore env fuel tr1 (m.heap P).ID = some (.ok moreP, o1.trace) ∧
        (o.m.heap P).Channels = csP ∧ (o.m.heap P).MoreChannels = moreP) ∧
      o.m.heap B = m.heap B ∧
      (o.m.heap A).MoreChannels = (m.heap A).MoreChannels ∧
      ((∃ tr2, fetchJoined env m fuel o1.trace (m.heap A).ID = some (.err e, tr2) ∧
          (o.m.heap A).Channels = (m.heap A).Channels) ∨
        (∃ csA tr2, fetchJoined env m fuel o1.trace (m.heap A).ID = some (.ok csA, tr2) ∧
          fetchMore env fuel tr2 (m.heap A).ID = some (.err e, o.trace) ∧
          (o.m.heap A).Channels = csA)) := by
  rcases h2o : UpdateChannelsTeam env fuel o1.m o1.trace (m.heap A).ID with _ | o2
  · rw [h2o] at h2
    exact absurd h2 (by simp)
  rw [h2o] at h2
  have h2e : o2.err = some e := by simpa using h2
  rcases UpdateChannelsTeam_cases _ _ _ _ _ _ h1 with
    ⟨e1, _, _, he⟩ | ⟨_, _, e1, _, _, _, he⟩ | ⟨csP, tr1, moreP, hjP, hmP, hm1, _⟩
  · rw [h1e] at he
    exact absurd he (by simp)
  · rw [h1e] at he
    exact absurd he (by simp)
  obtain ⟨m1, t1, e1⟩ := o1
  simp only at h1e hm1 hmP h2o
  subst h1e
  have hPmem : P ∈ m.OtherTeams := by rw [hO]; simp
  have hAmem : A ∈ m.OtherTeams := by rw [hO]; simp
  have hID1 : ∀ t, (m1.heap t).ID = (m.heap t).ID := by
    intro t
    rw [hm1, replaceTeamMoreChannels_ID, replaceTeamChannels_ID]
  have hOT1 : m1.OtherTeams = [P, A, B] := by rw [hm1]; exact hO
  have hTeam1 : m1.Team = P := by rw [hm1]; exact hT
  have hP1C : (m1.heap P).Channels = csP := by
    rw [hm1, replaceTeamMoreChannels_Channels, replaceTeamChannels_Channels _ _ _ _ hPmem rfl]
  have hP1M : (m1.heap P).MoreChannels = moreP := by
    rw [hm1]
    exact replaceTeamMoreChannels_MoreChannels _ _ _ _ hPmem (replaceTeamChannels_ID _ _ _ _)
  have hA1 : m1.heap A = m.heap A := by
    rw [hm1, replaceTeamMoreChannels_of_ne _ _ _ _
      (by rw [replaceTeamChannels_ID]; exact fun h => hPA h.symm),
      replaceTeamChannels_of_ne _ _ _ _ (fun h => hPA h.symm)]
  have hB1 : m1.heap B = m.heap B := by
    rw [hm1, replaceTeamMoreChannels_of_ne _ _ _ _
      (by rw [replaceTeamChannels_ID]; exact fun h => hPB h.symm),
      replaceTeamChannels_of_ne _ _ _ _ (fun h => hPB h.symm)]
  have hU : UpdateChannels env fuel m tr = some o2 := by
    obtain ⟨m2, t2, e2⟩ := o2
    simp only at h2e
    subst h2e
    unfold UpdateChannels
    rw [hT, h1]
    have hAP : ¬ (m.heap A).ID = (m.heap P).ID := fun h => hPA h.symm
    simp only [hOT1, updateOthers, hTeam1, hID1, if_neg hAP, if_true, h2o]
  rcases UpdateChannelsTeam_cases _ _ _ _ _ _ h2o with
    ⟨e2, hj2, hm2, he2⟩ | ⟨csA, tr2, e2, hj2, hmo2, hm2, he2⟩ | ⟨_, _, _, _, _, _, he2⟩
  · have hee : e2 = e := by rw [he2] at h2e; simpa using h2e
    subst hee
    refine ⟨o2, hU, h2e, ⟨csP, tr1, moreP, hjP, hmP, ?_, ?_⟩, ?_, ?_, Or.inl ⟨o2.trace, ?_, ?_⟩⟩
    · rw [hm2, hP1C]
    · rw [hm2, hP1M]
    · rw [hm2, hB1]
    · rw [hm2, hA1]
    · exact hm1 ▸ hj2
    · rw [hm2, hA1]
  · have hee : e2 = e := by rw [he2] at h2e; simpa using h2e
    subst hee
    have hPne : (m1.heap P).ID ≠ (m.heap A).ID := by rw [hID1]; exact hPA
    have hBne : (m1.heap B).ID ≠ (m.heap A).ID := by rw [hID1]; exact fun h => hAB h.symm
    refine ⟨o2, hU, h2e, ⟨csP, tr1, moreP, hjP, hmP, ?_, ?_⟩, ?_, ?_,
      Or.inr ⟨csA, tr2, ?_, hmo2, ?_⟩⟩
    · rw [hm2, replaceTeamChannels_of_ne _ _ _ _ hPne, hP1C]
    · rw [hm2, replaceTeamChannels_of_ne _ _ _ _ hPne, hP1M]
    · rw [hm2, replaceTeamChannels_of_ne _ _ _ _ hBne, hB1]
    · rw [hm2, replaceTeamChannels_MoreChannels, hA1]
    · exact hm1 ▸ hj2
    · rw [hm2, replaceTeamChannels_Channels _ _ _ _ (by rw [hOT1]; simp) (hID1 A)]
  · exact (Option.some_ne_none e (h2e.symm.trans he2)).elim

theorem UpdateChannels_aborts_at_second_team_witness :
    ∃ o, UpdateChannels ⟨exFailingRemote, exHandleRatelimit, 0⟩ 2 exThreeTeams [] = some o ∧
      o.err = some "StatusCode error" ∧ o.m.heap 2 = exThreeTeams.heap 2 ∧
      (o.m.heap 1).MoreChannels = (exThreeTeams.heap 1).MoreChannels :=
  match UpdateChannels_aborts_at_second_team ⟨exFailingRemote, exHandleRatelimit, 0⟩ 2
      exThreeTeams [] 0 1 2
      ⟨replaceTeamMoreChannels (replaceTeamChannels exThreeTeams "p" [exChannel "p"]) "p" [],
        [Call.GetChannelsForTeamForUser "p" "u1", Call.GetPublicChannelsForTeam "p" 0 200], none⟩
      "StatusCode error" rfl rfl (by decide) (by decide) (by decide) rfl rfl (by decide) with
  | ⟨o, h, he, _, hB, hA, _⟩ => ⟨o, h, he, hB, hA⟩

/-! ## Lookups by team and the list of joined channels -/

theorem scanTeam_eq_find (heap : Nat → Team) (name teamID : String) (ts : List Nat) :
    scanTeam heap name teamID ts =
      ((ts.filter (fun t => decide ((heap t).ID = teamID))).flatMap
        (fun t => (heap t).Channels ++ (heap t).MoreChannels)).find?
        (fun channel => decide (getNormalisedName channel = name)) := by
  induction ts with
  | nil => rfl
  | cons t ts ih =>
    unfold scanTeam
    by_cases hid : (heap t).ID = teamID
    · rw [if_pos hid, List.filter_cons_of_pos (by simpa using hid), List.flatMap_cons]
      generalize (heap t).Channels ++ (heap t).MoreChannels = l
      rw [List.find?_append, ih]
      cases l.find? (fun channel => decide (getNormalisedName channel = name)) with
      | none => rfl
      | some c => rfl
    · rw [if_neg hid, List.filter_cons_of_neg (by simpa using hid)]
      exact ih

/-- C11: with a non-empty `teamID`, `GetChannelID` returns, without a remote
call, the Id of the first cached channel of the teams with that ID whose
normalised name is `name`, a channel that is cached under such a team; when
there is none it makes one remote by-name lookup and returns the fetched
channel's Id, or `""` when the lookup fails. -/
theorem GetChannelID_team_spec (env : Env) (m : Client) (tr : Trace) (name teamID : String)
    (hT : teamID ≠ "") :
    GetChannelID env m tr name teamID =
      (match (teamChannels m teamID).find?
          (fun channel => decide (getNormalisedName channel = name)) with
       | some c => (c.Id, tr)
       | none =>
         (match env.remote.GetChannelByName tr name teamID with
          | .ok c => c.Id
          | .fail _ _ => "",
          tr ++ [Call.GetChannelByName name teamID])) ∧
    (∀ c, (teamChannels m teamID).find?
        (fun channel => decide (getNormalisedName channel = name)) = some c →
      ∃ t ∈ m.OtherTeams, (m.heap t).ID = teamID ∧
        c ∈ (m.heap t).Channels ++ (m.heap t).MoreChannels) := by
  constructor
  · unfold GetChannelID getChannelIDTeam teamChannels
    rw [if_pos hT, scanTeam_eq_find]
    generalize List.find? _ _ = r
    cases r with
    | some c => rfl
    | none => cases env.remote.GetChannelByName tr name teamID <;> rfl
  · intro c hc
    have hmem := List.mem_of_find?_eq_some hc
    simp only [teamChannels, List.mem_flatMap, List.mem_filter, decide_eq_true_eq] at hmem
    obtain ⟨t, ⟨ht, hid⟩, hct⟩ := hmem
    exact ⟨t, ht, hid, hct⟩

theorem GetChannelID_team_spec_witness :
    GetChannelID ⟨exQuietRemote, exHandleRatelimit, 0⟩ exStore [] "off-topic" "t1"
      = ("off-topic", []) :=
  (GetChannelID_team_spec ⟨exQuietRemote, exHandleRatelimit, 0⟩ exStore [] "off-topic" "t1"
    (by decide)).1

theorem appendOtherChannels_eq (heap : Nat → Team) (primaryID : String) (ts : List Nat)
    (channels : List Channel) :
    appendOtherChannels heap primaryID ts channels =
      channels ++ (ts.filter (fun t => decide ((heap t).ID ≠ primaryID))).flatMap
        (fun t => (heap t).Channels) := by
  induction ts generalizing channels with
  | nil => simp [appendOtherChannels]
  | cons t ts ih =>
    unfold appendOtherChannels
    by_cases hid : (heap t).ID ≠ primaryID
    · rw [if_pos hid, ih, List.filter_cons_of_pos (by simpa using hid), List.flatMap_cons,
        List.append_assoc]
    · rw [if_neg hid, ih, List.filter_cons_of_neg (by simpa using hid)]

/-- C12: `GetChannels` is the primary team's joined list followed by the joined
lists of the teams of `m.OtherTeams` whose ID differs from the primary team's,
in store order and without de-duplication; its length is the sum of the
lengths of those lists, and the primary team is not among the teams appended. -/
theorem GetChannels_spec (m : Client) :
    GetChannels m = (m.heap m.Team).Channels ++
      (m.OtherTeams.filter (fun t => decide ((m.heap t).ID ≠ (m.heap m.Team).ID))).flatMap
        (fun t => (m.heap t).Channels) ∧
    (GetChannels m).length = (m.heap m.Team).Channels.length +
      ((m.OtherTeams.filter (fun t => decide ((m.heap t).ID ≠ (m.heap m.Team).ID))).map
        (fun t => (m.heap t).Channels.length)).sum ∧
    m.Team ∉ m.OtherTeams.filter (fun t => decide ((m.heap t).ID ≠ (m.heap m.Team).ID)) := by
  have h : GetChannels m = (m.heap m.Team).Channels ++
      (m.OtherTeams.filter (fun t => decide ((m.heap t).ID ≠ (m.heap m.Team).ID))).flatMap
        (fun t => (m.heap t).Channels) := by
    unfold GetChannels
    rw [appendOtherChannels_eq, List.nil_append]
  refine ⟨h, ?_, ?_⟩
  · rw [h, List.length_append, List.length_flatMap]
    rfl
  · intro hmem
    simp [List.mem_filter] at hmem

/-! ## Unknown ids and header updates -/

/-- C13: for an id that no channel of any team's joined or joinable list has,
`GetChannelHeader`, `GetChannelName`, `GetTeamFromChannel` and
`GetChannelTeamID` all return `""`. -/
theorem lookups_of_unknown_id (m : Client) (channelID : String)
    (h : ∀ t, t ∈ m.OtherTeams ∨ t = m.Team →
      ∀ c ∈ (m.heap t).Channels ++ (m.heap t).MoreChannels, c.Id ≠ channelID) :
    GetChannelHeader m channelID = "" ∧ GetChannelName m channelID = "" ∧
    GetTeamFromChannel m channelID = "" ∧ GetChannelTeamID m channelID = "" := by
  have h1 : scanTeams m.heap (fun c => decide (c.Id = channelID)) m.OtherTeams = none :=
    scanTeams_eq_none _ _ _ (fun t ht c hc => by simpa using h t (Or.inl ht) c hc)
  have h2 : scanTeams m.heap (fun c => decide (c.Id = channelID)) (m.OtherTeams ++ [m.Team])
      = none :=
    scanTeams_eq_none _ _ _ (fun t ht c hc => by
      have ht2 : t ∈ m.OtherTeams ∨ t = m.Team := by simpa using ht
      simpa using h t ht2 c hc)
  simp only [GetChannelHeader, GetChannelName, GetTeamFromChannel, GetChannelTeamID, h1, h2,
    and_self]

theorem lookups_of_unknown_id_witness :
    GetChannelHeader exTwoTeams "zz" = "" ∧ GetChannelName exTwoTeams "zz" = "" ∧
    GetTeamFromChannel exTwoTeams "zz" = "" ∧ GetChannelTeamID exTwoTeams "zz" = "" :=
  lookups_of_unknown_id exTwoTeams "zz" (by
    intro t ht c hc
    have hc2 : c ∈ ([⟨"a", "a", "a", "old", "t0", "O"⟩] : List Channel) := by
      by_cases h0 : t = 0
      · subst h0; exact hc
      · simp [exTwoTeams, h0] at hc
    have hc3 : c = ⟨"a", "a", "a", "old", "t0", "O"⟩ := by simpa using hc2
    rw [hc3]
    decide)

/-- C18: `UpdateChannelHeader` leaves the store as it was, so every cached list
and the header `GetChannelHeader` returns are unchanged; it makes exactly one
remote `UpdateChannel` call, and nothing of that call's failure reaches the
caller. -/
theorem UpdateChannelHeader_spec (env : Env) (m : Client) (tr : Trace)
    (channelID header : String) :
    UpdateChannelHeader env m tr channelID header =
      (m, tr ++ [Call.UpdateChannel channelID header]) ∧
    GetChannelHeader (UpdateChannelHeader env m tr channelID header).1 channelID =
      GetChannelHeader m channelID := by
  have h : UpdateChannelHeader env m tr channelID header =
      (m, tr ++ [Call.UpdateChannel channelID header]) := by
    unfold UpdateChannelHeader
    cases env.remote.UpdateChannel tr channelID header <;> rfl
  exact ⟨h, by rw [h]⟩

/-! ## What a refresh leaves alone -/

theorem Client_eq_of_heap (a b : Client) (hh : ∀ t, a.heap t = b.heap t) (hT : a.Team = b.Team)
    (hO : a.OtherTeams = b.OtherTeams) (hU : a.UserId = b.UserId) : a = b := by
  obtain ⟨ah, aT, aO, aU⟩ := a
  obtain ⟨bh, bT, bO, bU⟩ := b
  simp only at hh hT hO hU
  have hf : ah = bh := funext hh
  subst hf hT hO hU
  rfl

theorem replaceTeamChannels_of_not_mem (m : Client) (teamID : String) (cs : List Channel)
    (t : Nat) (h : t ∉ m.OtherTeams) : (replaceTeamChannels m teamID cs).heap t = m.heap t := by
  rw [replaceTeamChannels_heap, if_neg (fun hh => h hh.1)]

theorem replaceTeamMoreChannels_of_not_mem (m : Client) (teamID : String) (cs : List Channel)
    (t : Nat) (h : t ∉ m.OtherTeams) :
    (replaceTeamMoreChannels m teamID cs).heap t = m.heap t := by
  rw [replaceTeamMoreChannels_heap, if_neg (fun hh => h hh.1)]

/-- What `UpdateChannelsTeam` never touches: the slice of teams, the primary
team, the user, the ID of every team, and every team that has another ID or
is not in `m.OtherTeams`. -/
theorem UpdateChannelsTeam_keeps (env : Env) (fuel : Nat) (m : Client) (tr : Trace)
    (teamID : String) (o : Outcome) (h : UpdateChannelsTeam env fuel m tr teamID = some o) :
    o.m.OtherTeams = m.OtherTeams ∧ o.m.Team = m.Team ∧ o.m.UserId = m.UserId ∧
    (∀ t, (o.m.heap t).ID = (m.heap t).ID) ∧
    (∀ t, (m.heap t).ID ≠ teamID ∨ t ∉ m.OtherTeams → o.m.heap t = m.heap t) := by
  rcases UpdateChannelsTeam_cases _ _ _ _ _ _ h with
    ⟨_, _, hm, _⟩ | ⟨cs, _, _, _, _, hm, _⟩ | ⟨cs, _, more, _, _, hm, _⟩
  · rw [hm]
    exact ⟨rfl, rfl, rfl, fun _ => rfl, fun _ _ => rfl⟩
  · rw [hm]
    refine ⟨rfl, rfl, rfl, fun t => replaceTeamChannels_ID _ _ _ t, ?_⟩
    rintro t (ht | ht)
    · exact replaceTeamChannels_of_ne _ _ _ _ ht
    · exact replaceTeamChannels_of_not_mem _ _ _ _ ht
  · rw [hm]
    refine ⟨rfl, rfl, rfl, fun t => ?_, ?_⟩
    · rw [replaceTeamMoreChannels_ID, replaceTeamChannels_ID]
    · rintro t (ht | ht)
      · rw [replaceTeamMoreChannels_of_ne _ _ _ _ (by rw [replaceTeamChannels_ID]; exact ht),
          replaceTeamChannels_of_ne _ _ _ _ ht]
      · have ht2 : t ∉ (replaceTeamChannels m teamID cs).OtherTeams := ht
        rw [replaceTeamMoreChannels_of_not_mem _ _ _ _ ht2,
          replaceTeamChannels_of_not_mem _ _ _ _ ht]

/-- C19: `UpdateChannelsTeam(teamID)` keeps the slice of teams (their number
and order), the primary team and every team's ID; a team with another ID, or
outside `m.OtherTeams`, keeps both lists; and the whole store is unchanged when
no team of `m.OtherTeams` has that ID or when the joined fetch is given up. -/
theorem UpdateChannelsTeam_frame (env : Env) (fuel : Nat) (m : Client) (tr : Trace)
    (teamID : String) (o : Outcome) (h : UpdateChannelsTeam env fuel m tr teamID = some o) :
    o.m.OtherTeams = m.OtherTeams ∧ o.m.Team = m.Team ∧
    (∀ t, (o.m.heap t).ID = (m.heap t).ID) ∧
    (∀ t, (m.heap t).ID ≠ teamID ∨ t ∉ m.OtherTeams →
      (o.m.heap t).Channels = (m.heap t).Channels ∧
      (o.m.heap t).MoreChannels = (m.heap t).MoreChannels) ∧
    ((∀ t ∈ m.OtherTeams, (m.heap t).ID ≠ teamID) → o.m = m) ∧
    (∀ e tr1, fetchJoined env m fuel tr teamID = some (.err e, tr1) → o.m = m) := by
  obtain ⟨hO, hT, hU, hID, hK⟩ := UpdateChannelsTeam_keeps env fuel m tr teamID o h
  refine ⟨hO, hT, hID, fun t ht => by rw [hK t ht]; exact ⟨rfl, rfl⟩, ?_, ?_⟩
  · intro hno
    apply Client_eq_of_heap _ _ _ hT hO hU
    intro t
    by_cases ht : t ∈ m.OtherTeams
    · exact hK t (Or.inl (hno t ht))
    · exact hK t (Or.inr ht)
  · intro e tr1 hj
    rcases UpdateChannelsTeam_cases _ _ _ _ _ _ h with
      ⟨_, _, hm, _⟩ | ⟨_, _, _, hj2, _, _, _⟩ | ⟨_, _, _, hj2, _, _, _⟩
    · exact hm
    · rw [hj] at hj2
      exact absurd hj2 (by simp)
    · rw [hj] at hj2
      exact absurd hj2 (by simp)

theorem UpdateChannelsTeam_frame_witness :
    ∃ o, UpdateChannelsTeam ⟨exFailingRemote, exHandleRatelimit, 0⟩ 2 exThreeTeams [] "a"
        = some o ∧
      o.m.OtherTeams = [0, 1, 2] ∧ (o.m.heap 2).Channels = (exThreeTeams.heap 2).Channels ∧
      (o.m.heap 0).MoreChannels = (exThreeTeams.heap 0).MoreChannels :=
  ⟨⟨replaceTeamChannels exThreeTeams "a" [exChannel "a"],
      [Call.GetChannelsForTeamForUser "a" "u1", Call.GetPublicChannelsForTeam "a" 0 200],
      some "StatusCode error"⟩, rfl,
    (UpdateChannelsTeam_frame ⟨exFailingRemote, exHandleRatelimit, 0⟩ 2 exThreeTeams [] "a"
      _ rfl).1,
    ((UpdateChannelsTeam_frame ⟨exFailingRemote, exHandleRatelimit, 0⟩ 2 exThreeTeams [] "a"
      _ rfl).2.2.2.1 2 (Or.inl (by decide))).1,
    ((UpdateChannelsTeam_frame ⟨exFailingRemote, exHandleRatelimit, 0⟩ 2 exThreeTeams [] "a"
      _ rfl).2.2.2.1 0 (Or.inl (by decide))).2⟩

/-! ## The uniqueness invariant -/

theorem retryLoop_ok_source {α : Type} (env : Env) (name : String) (call : Call)
    (ask : Trace → Reply α) (fuel : Nat) (tr tr1 : Trace) (payload : α)
    (h : retryLoop env name call ask fuel tr = some (.ok payload, tr1)) :
    ∃ t, ask t = .ok payload := by
  induction fuel generalizing tr with
  | zero => simp [retryLoop] at h
  | succ n ih =>
    unfold retryLoop at h
    rcases ha : ask tr with p | ⟨resp, err⟩
    · simp only [ha, Option.some.injEq, Prod.mk.injEq, Fetched.ok.injEq] at h
      exact ⟨tr, by rw [ha, h.1]⟩
    · rcases hr : env.HandleRatelimit name resp with _ | e
      · simp only [ha, hr] at h
        exact ih _ h
      · simp [ha, hr] at h

/-- Whatever holds of the store before `UpdateChannels` and is kept by every
`UpdateChannelsTeam` holds of the store after it. -/
theorem updateOthers_keeps (env : Env) (fuel : Nat) (Inv : Client → Prop)
    (hstep : ∀ m tr teamID o, Inv m → UpdateChannelsTeam env fuel m tr teamID = some o →
      Inv o.m)
    (ts : List Nat) (m : Client) (tr : Trace) (o : Outcome) (hm : Inv m)
    (h : updateOthers env fuel m tr ts = some o) : Inv o.m := by
  induction ts generalizing m tr with
  | nil =>
    simp only [updateOthers, Option.some.injEq] at h
    rw [← h]
    exact hm
  | cons t ts ih =>
    unfold updateOthers at h
    by_cases hid : (m.heap t).ID = (m.heap m.Team).ID
    · rw [if_pos hid] at h
      exact ih m tr hm h
    · rw [if_neg hid] at h
      rcases hu : UpdateChannelsTeam env fuel m tr (m.heap t).ID with _ | ⟨m1, tr1, e1⟩
      · rw [hu] at h
        simp at h
      · rw [hu] at h
        have hm1 : Inv m1 := hstep m tr _ _ hm hu
        cases e1 with
        | none => exact ih m1 tr1 hm1 h
        | some e =>
          simp only [Option.some.injEq] at h
          rw [← h]
          exact hm1

theorem UpdateChannels_keeps (env : Env) (fuel : Nat) (Inv : Client → Prop)
    (hstep : ∀ m tr teamID o, Inv m → UpdateChannelsTeam env fuel m tr teamID = some o →
      Inv o.m)
    (m : Client) (tr : Trace) (o : Outcome) (hm : Inv m)
    (h : UpdateChannels env fuel m tr = some o) : Inv o.m := by
  unfold UpdateChannels at h
  rcases hu : UpdateChannelsTeam env fuel m tr (m.heap m.Team).ID with _ | ⟨m1, tr1, e1⟩
  · rw [hu] at h
    simp at h
  · rw [hu] at h
    have hm1 : Inv m1 := hstep m tr _ _ hm hu
    cases e1 with
    | none => exact updateOthers_keeps env fuel Inv hstep _ m1 tr1 o hm1 h
    | some e =>
      simp only [Option.some.injEq] at h
      rw [← h]
      exact hm1

theorem UpdateChannelsTeam_unique (env : Env) (fuel : Nat)
    (hR : ∀ t teamID userID cs, env.remote.GetChannelsForTeamForUser t teamID userID = .ok cs →
      (cs.map (fun c => c.Id)).Nodup)
    (m : Client) (tr : Trace) (teamID : String) (o : Outcome) (hm : JoinedIdsUnique m)
    (h : UpdateChannelsTeam env fuel m tr teamID = some o) : JoinedIdsUnique o.m := by
  have hcs : ∀ cs tr1, fetchJoined env m fuel tr teamID = some (.ok cs, tr1) →
      (cs.map (fun c => c.Id)).Nodup := by
    intro cs tr1 hj
    obtain ⟨t, ht⟩ := retryLoop_ok_source _ _ _ _ _ _ _ _ hj
    exact hR t _ _ cs ht
  have hrep : ∀ cs, (cs.map (fun c => c.Id)).Nodup →
      JoinedIdsUnique (replaceTeamChannels m teamID cs) := by
    intro cs hn t ht
    have ht2 : t ∈ m.OtherTeams ∨ t = m.Team := ht
    rw [replaceTeamChannels_heap]
    split
    · exact hn
    · exact hm t ht2
  rcases UpdateChannelsTeam_cases _ _ _ _ _ _ h with
    ⟨_, _, hom, _⟩ | ⟨cs, tr1, _, hj, _, hom, _⟩ | ⟨cs, tr1, more, hj, _, hom, _⟩
  · rw [hom]
    exact hm
  · rw [hom]
    exact hrep cs (hcs cs tr1 hj)
  · rw [hom]
    intro t ht
    rw [replaceTeamMoreChannels_Channels]
    exact hrep cs (hcs cs tr1 hj) t ht

/-- C16 (as stated, refuted): the joined list of the store's team has unique
ids before a successful `UpdateChannelsTeam`, and holds the id `dup` twice
after it. -/
theorem UpdateChannelsTeam_stores_duplicates :
    JoinedIdsUnique exStore ∧
    ∃ o, UpdateChannelsTeam ⟨exDupRemote, exHandleRatelimit, 0⟩ 1 exStore [] "t1" = some o ∧
      o.err = none ∧ ¬ JoinedIdsUnique o.m := by
  refine ⟨fun _ _ =>
      (by decide : (List.map (fun c : Channel => c.Id) [exChannel "town"]).Nodup),
    ⟨replaceTeamMoreChannels
        (replaceTeamChannels exStore "t1" [exChannel "dup", exChannel "dup"]) "t1" [],
      [Call.GetChannelsForTeamForUser "t1" "u1", Call.GetPublicChannelsForTeam "t1" 0 200],
      none⟩, rfl, rfl, ?_⟩
  intro h
  exact absurd (h 0 (Or.inl (List.mem_singleton.mpr rfl))) (by decide)

/-- C16 (amended): when every joined-channel list the remote returns has
pairwise distinct ids, uniqueness of the ids in every team's joined list
is kept by `UpdateChannelsTeam` and by `UpdateChannels`, whatever they return;
the other operations do not write the store. -/
theorem JoinedIdsUnique_kept (env : Env) (fuel : Nat) (m : Client) (tr : Trace)
    (hR : ∀ t teamID userID cs, env.remote.GetChannelsForTeamForUser t teamID userID = .ok cs →
      (cs.map (fun c => c.Id)).Nodup)
    (hm : JoinedIdsUnique m) :
    (∀ teamID o, UpdateChannelsTeam env fuel m tr teamID = some o → JoinedIdsUnique o.m) ∧
    (∀ o, UpdateChannels env fuel m tr = some o → JoinedIdsUnique o.m) ∧
    (∀ channelID header,
      JoinedIdsUnique (UpdateChannelHeader env m tr channelID header).1) := by
  refine ⟨fun teamID o h => UpdateChannelsTeam_unique env fuel hR m tr teamID o hm h,
    fun o h => UpdateChannels_keeps env fuel JoinedIdsUnique
      (fun m1 tr1 teamID o1 h1 h2 => UpdateChannelsTeam_unique env fuel hR m1 tr1 teamID o1 h1 h2)
      m tr o hm h, ?_⟩
  intro channelID header
  have h : (UpdateChannelHeader env m tr channelID header).1 = m := by
    unfold UpdateChannelHeader
    cases env.remote.UpdateChannel tr channelID header <;> rfl
  rw [h]
  exact hm

theorem JoinedIdsUnique_kept_witness :
    ∃ o, UpdateChannels ⟨exTwoJoinedRemote, exHandleRatelimit, 0⟩ 1 exStore [] = some o ∧
      (o.m.heap 0).Channels = [exChannel "town", exChannel "lobby"] ∧
      JoinedIdsUnique o.m :=
  ⟨⟨replaceTeamMoreChannels
        (replaceTeamChannels exStore "t1" [exChannel "town", exChannel "lobby"]) "t1" [],
      [Call.GetChannelsForTeamForUser "t1" "u1", Call.GetPublicChannelsForTeam "t1" 0 200],
      none⟩, rfl, rfl,
    (JoinedIdsUnique_kept ⟨exTwoJoinedRemote, exHandleRatelimit, 0⟩ 1 exStore []
      (fun _ _ _ cs h => by
        have hcs : [exChannel "town", exChannel "lobby"] = cs := by
          simpa [exTwoJoinedRemote] using h
        rw [← hcs]
        decide)
      (fun _ _ =>
        (by decide : (List.map (fun c : Channel => c.Id) [exChannel "town"]).Nodup))).2.1
      _ rfl⟩

/-! ## The order of refreshes -/

theorem updateOthers_eq_refreshSeq (env : Env) (fuel : Nat) (ts : List Nat) (m : Client)
    (tr : Trace) :
    updateOthers env fuel m tr ts =
      refreshSeq env fuel
        ((ts.map (fun t => (m.heap t).ID)).filter
          (fun id => decide (id ≠ (m.heap m.Team).ID))) m tr := by
  induction ts generalizing m tr with
  | nil => rfl
  | cons t ts ih =>
    unfold updateOthers
    by_cases hid : (m.heap t).ID = (m.heap m.Team).ID
    · rw [if_pos hid, List.map_cons, List.filter_cons_of_neg (by simpa using hid)]
      exact ih m tr
    · rw [if_neg hid, List.map_cons, List.filter_cons_of_pos (by simpa using hid), refreshSeq]
      rcases hu : UpdateChannelsTeam env fuel m tr (m.heap t).ID with _ | ⟨m1, tr1, e1⟩
      · rfl
      · cases e1 with
        | some e => rfl
        | none =>
          obtain ⟨_, hT, _, hID, _⟩ := UpdateChannelsTeam_keeps env fuel m tr _ _ hu
          simp only at hT hID
          simp only [ih m1 tr1, hT, hID]

/-- C17 (as stated, refuted): two entries of `m.OtherTeams` have the ID `a`, and
`UpdateChannels` refreshes `a` twice: the joined channels of `a` are fetched
twice, with no failure. -/
theorem UpdateChannels_refreshes_shared_id_twice :
    (UpdateChannels ⟨exQuietRemote, exHandleRatelimit, 0⟩ 1 exSharedIdStore []).map
        (fun o => (o.err, o.trace)) =
      some (none,
        [Call.GetChannelsForTeamForUser "p" "u1", Call.GetPublicChannelsForTeam "p" 0 200,
         Call.GetChannelsForTeamForUser "a" "u1", Call.GetPublicChannelsForTeam "a" 0 200,
         Call.GetChannelsForTeamForUser "a" "u1", Call.GetPublicChannelsForTeam "a" 0 200]) ∧
    refreshOrder exSharedIdStore = ["p", "a", "a"] := by
  decide

/-- C17 (amended): `UpdateChannels` is `UpdateChannelsTeam` called on the primary
team's ID and then on the IDs of `m.OtherTeams`, in store order, that differ
from it, stopping only at a refresh that returns an error; in that sequence
the primary ID occurs once and every other ID as often as it does in
`m.OtherTeams`, which is exactly once when the IDs of the entries of
`m.OtherTeams` are pairwise distinct. -/
theorem UpdateChannels_order (env : Env) (fuel : Nat) (m : Client) (tr : Trace) :
    UpdateChannels env fuel m tr = refreshSeq env fuel (refreshOrder m) m tr ∧
    (refreshOrder m).count (m.heap m.Team).ID = 1 ∧
    (∀ id, id ≠ (m.heap m.Team).ID →
      (refreshOrder m).count id = (m.OtherTeams.map (fun t => (m.heap t).ID)).count id) ∧
    ((m.OtherTeams.map (fun t => (m.heap t).ID)).Nodup →
      ∀ t ∈ m.OtherTeams, (m.heap t).ID ≠ (m.heap m.Team).ID →
        (refreshOrder m).count (m.heap t).ID = 1) := by
  have hcount : ∀ id, id ≠ (m.heap m.Team).ID →
      (refreshOrder m).count id = (m.OtherTeams.map (fun t => (m.heap t).ID)).count id := by
    intro id hid
    unfold refreshOrder
    rw [List.count_cons_of_ne hid]
    simp only [List.count, List.countP_filter]
    congr 1
    funext x
    by_cases hx : x = id
    · subst hx
      simp [hid]
    · have hx2 : (x == id) = false := by simpa using hx
      simp [hx2]
  refine ⟨?_, ?_, hcount, ?_⟩
  · unfold UpdateChannels refreshOrder
    rw [refreshSeq]
    rcases hu : UpdateChannelsTeam env fuel m tr (m.heap m.Team).ID with _ | ⟨m1, tr1, e1⟩
    · rfl
    · cases e1 with
      | some e => rfl
      | none =>
        obtain ⟨hO, hT, _, hID, _⟩ := UpdateChannelsTeam_keeps env fuel m tr _ _ hu
        simp only at hO hT hID
        simp only [updateOthers_eq_refreshSeq, hO, hT, hID]
  · unfold refreshOrder
    rw [List.count_cons_self, List.count_eq_zero_of_not_mem]
    intro hmem
    simp [List.mem_filter] at hmem
  · intro hnd t ht hid
    rw [hcount _ hid]
    exact List.count_eq_one_of_mem hnd (List.mem_map.mpr ⟨t, ht, rfl⟩)

theorem UpdateChannels_order_witness :
    UpdateChannels ⟨exQuietRemote, exHandleRatelimit, 0⟩ 1 exThreeTeams [] =
      refreshSeq ⟨exQuietRemote, exHandleRatelimit, 0⟩ 1 ["p", "a", "b"] exThreeTeams [] ∧
    (refreshOrder exThreeTeams).count "a" = 1 ∧ (refreshOrder exThreeTeams).count "b" = 1 :=
  ⟨(UpdateChannels_order ⟨exQuietRemote, exHandleRatelimit, 0⟩ 1 exThreeTeams []).1,
   (UpdateChannels_order ⟨exQuietRemote, exHandleRatelimit, 0⟩ 1 exThreeTeams []).2.2.2
      (by decide) 1 (by decide) (by decide),
   (UpdateChannels_order ⟨exQuietRemote, exHandleRatelimit, 0⟩ 1 exThreeTeams []).2.2.2
      (by decide) 2 (by decide) (by decide)⟩

/-! ## Name and id round trip -/

/-- C20: when the ids of all cached channels are pairwise distinct and
`GetChannelID(name, "")` returns a non-empty id, `GetChannelName` of that id
is `name`. -/
theorem GetChannelName_of_GetChannelID (env : Env) (m : Client) (tr : Trace) (name : String)
    (hU : ((cachedChannels m).map (fun tc => tc.2.Id)).Nodup)
    (hne : (GetChannelID env m tr name "").1 ≠ "") :
    GetChannelName m (GetChannelID env m tr name "").1 = name := by
  have hI : ∀ x ∈ cachedChannels m, ∀ y ∈ cachedChannels m, x.2.Id = y.2.Id → x = y :=
    fun x hx y hy hxy => List.inj_on_of_nodup_map hU hx hy hxy
  unfold GetChannelID at hne ⊢
  rw [if_neg (by simp)] at hne ⊢
  rw [scanTeams_eq_find m.heap (fun c => decide (getNormalisedName c = name))] at hne ⊢
  change (match (cachedChannels m).find? (fun tc : Nat × Channel => decide (getNormalisedName tc.2 = name)) with
    | some (_, channel) => (channel.Id, tr)
    | none => ("", tr)).1 ≠ "" at hne
  change GetChannelName m
    (match (cachedChannels m).find? (fun tc : Nat × Channel => decide (getNormalisedName tc.2 = name)) with
    | some (_, channel) => (channel.Id, tr)
    | none => ("", tr)).1 = name
  rcases hf : (cachedChannels m).find? (fun tc : Nat × Channel => decide (getNormalisedName tc.2 = name))
    with _ | ⟨t, c⟩
  · rw [hf] at hne
    exact absurd rfl hne
  · have hmem : (t, c) ∈ cachedChannels m := List.mem_of_find?_eq_some hf
    have hname : getNormalisedName c = name := by
      simpa using List.find?_some hf
    show GetChannelName m c.Id = name
    unfold GetChannelName
    rw [scanTeams_eq_find m.heap (fun ch => decide (ch.Id = c.Id))]
    change (match (cachedChannels m).find? (fun tc : Nat × Channel => decide (tc.2.Id = c.Id)) with
      | some (_, channel) => getNormalisedName channel
      | none => "") = name
    rcases hg : (cachedChannels m).find? (fun tc : Nat × Channel => decide (tc.2.Id = c.Id)) with _ | ⟨t2, c2⟩
    · rw [List.find?_eq_none] at hg
      exact absurd (by simp) (hg (t, c) hmem)
    · have hmem2 : (t2, c2) ∈ cachedChannels m := List.mem_of_find?_eq_some hg
      have hid : c2.Id = c.Id := by simpa using List.find?_some hg
      have heq : (t2, c2) = (t, c) := hI _ hmem2 _ hmem hid
      have hc : c2 = c := congrArg Prod.snd heq
      show getNormalisedName c2 = name
      rw [hc, hname]

theorem GetChannelName_of_GetChannelID_witness :
    GetChannelName exStore
      (GetChannelID ⟨exQuietRemote, exHandleRatelimit, 0⟩ exStore [] "off-topic" "").1
      = "off-topic" :=
  GetChannelName_of_GetChannelID ⟨exQuietRemote, exHandleRatelimit, 0⟩ exStore [] "off-topic"
    (by decide) (by decide)

/-! ## The retry loop -/

theorem retryLoop_throttled {α : Type} (env : Env) (name : String) (call : Call)
    (ask : Trace → Reply α) (payload : α) (n fuel : Nat) (tr : Trace)
    (h : ThrottledThenOk env name call ask payload n tr) (hf : n < fuel) :
    retryLoop env name call ask fuel tr = some (.ok payload, tr ++ List.replicate (n + 1) call) := by
  induction n generalizing tr fuel with
  | zero =>
    obtain ⟨k, rfl⟩ : ∃ k, fuel = k + 1 := ⟨fuel - 1, by omega⟩
    exact retryLoop_ok env name call ask k tr payload h
  | succ n ih =>
    obtain ⟨k, rfl⟩ : ∃ k, fuel = k + 1 := ⟨fuel - 1, by omega⟩
    obtain ⟨⟨resp, err, ha, hr⟩, hrest⟩ := h
    rw [retryLoop]
    simp only [ha, hr]
    rw [ih k (tr ++ [call]) hrest (by omega), List.append_assoc]
    rfl

/-- C14: when the remote answers an operation's call with `n` failures on which
the retry verdict is "retry" and then with success, `UpdateLastViewed` returns
nil, `GetLastViewedAt` the fetched `LastViewedAt`, and the two fetches of
`UpdateChannelsTeam` the fetched list, each after exactly `n + 1` remote calls. -/
theorem retry_until_success (env : Env) (m : Client) (n fuel : Nat) (tr : Trace)
    (hf : n < fuel) :
    (∀ channelID,
      ThrottledThenOk env "ViewChannel" (Call.ViewChannel m.UserId channelID)
        (fun t => env.remote.ViewChannel t m.UserId channelID) () n tr →
      UpdateLastViewed env m fuel tr channelID =
        some (none, tr ++ List.replicate (n + 1) (Call.ViewChannel m.UserId channelID))) ∧
    (∀ channelID lastViewedAt,
      ThrottledThenOk env "GetChannelMember" (Call.GetChannelMember channelID m.UserId)
        (fun t => env.remote.GetChannelMember t channelID m.UserId) lastViewedAt n tr →
      GetLastViewedAt env m fuel tr channelID =
        some (lastViewedAt,
          tr ++ List.replicate (n + 1) (Call.GetChannelMember channelID m.UserId))) ∧
    (∀ teamID cs,
      ThrottledThenOk env "GetChannelsForTeamForUser"
        (Call.GetChannelsForTeamForUser teamID m.UserId)
        (fun t => env.remote.GetChannelsForTeamForUser t teamID m.UserId) cs n tr →
      fetchJoined env m fuel tr teamID =
        some (.ok cs,
          tr ++ List.replicate (n + 1) (Call.GetChannelsForTeamForUser teamID m.UserId))) ∧
    (∀ teamID idx page,
      ThrottledThenOk env "GetPublicChannelsForTeam"
        (Call.GetPublicChannelsForTeam teamID idx 200)
        (fun t => env.remote.GetPublicChannelsForTeam t teamID idx 200) page n tr →
      fetchPage env teamID idx fuel tr =
        some (.ok page,
          tr ++ List.replicate (n + 1) (Call.GetPublicChannelsForTeam teamID idx 200))) := by
  refine ⟨?_, ?_, ?_, ?_⟩
  · intro channelID h
    unfold UpdateLastViewed
    rw [retryLoop_throttled env _ _ _ _ n fuel tr h hf]
  · intro channelID lastViewedAt h
    unfold GetLastViewedAt
    rw [retryLoop_throttled env _ _ _ _ n fuel tr h hf]
  · intro teamID cs h
    unfold fetchJoined
    exact retryLoop_throttled env _ _ _ _ n fuel tr h hf
  · intro teamID idx page h
    unfold fetchPage
    exact retryLoop_throttled env _ _ _ _ n fuel tr h hf

theorem retry_until_success_witness :
    UpdateLastViewed ⟨exThrottleTwiceRemote, exHandleRatelimit, 0⟩ exStore 3 [] "town" =
      some (none, [Call.ViewChannel "u1" "town", Call.ViewChannel "u1" "town",
        Call.ViewChannel "u1" "town"]) ∧
    GetLastViewedAt ⟨exThrottleTwiceRemote, exHandleRatelimit, 0⟩ exStore 3 [] "town" =
      some (1700000000000, [Call.GetChannelMember "town" "u1", Call.GetChannelMember "town" "u1",
        Call.GetChannelMember "town" "u1"]) ∧
    fetchJoined ⟨exThrottleTwiceRemote, exHandleRatelimit, 0⟩ exStore 3 [] "t1" =
      some (.ok [exChannel "town"], [Call.GetChannelsForTeamForUser "t1" "u1",
        Call.GetChannelsForTeamForUser "t1" "u1", Call.GetChannelsForTeamForUser "t1" "u1"]) ∧
    fetchPage ⟨exThrottleTwiceRemote, exHandleRatelimit, 0⟩ "t1" 0 3 [] =
      some (.ok [exChannel "off-topic"], [Call.GetPublicChannelsForTeam "t1" 0 200,
        Call.GetPublicChannelsForTeam "t1" 0 200, Call.GetPublicChannelsForTeam "t1" 0 200]) :=
  ⟨(retry_until_success ⟨exThrottleTwiceRemote, exHandleRatelimit, 0⟩ exStore 2 3 []
      (by decide)).1 "town"
      ⟨⟨⟨429, 1⟩, "rate limited", rfl, rfl⟩, ⟨⟨429, 1⟩, "rate limited", rfl, rfl⟩, rfl⟩,
   (retry_until_success ⟨exThrottleTwiceRemote, exHandleRatelimit, 0⟩ exStore 2 3 []
      (by decide)).2.1 "town" 1700000000000
      ⟨⟨⟨429, 1⟩, "rate limited", rfl, rfl⟩, ⟨⟨429, 1⟩, "rate limited", rfl, rfl⟩, rfl⟩,
   (retry_until_success ⟨exThrottleTwiceRemote, exHandleRatelimit, 0⟩ exStore 2 3 []
      (by decide)).2.2.1 "t1" [exChannel "town"]
      ⟨⟨⟨429, 1⟩, "rate limited", rfl, rfl⟩, ⟨⟨429, 1⟩, "rate limited", rfl, rfl⟩, rfl⟩,
   (retry_until_success ⟨exThrottleTwiceRemote, exHandleRatelimit, 0⟩ exStore 2 3 []
      (by decide)).2.2.2 "t1" 0 [exChannel "off-topic"]
      ⟨⟨⟨429, 1⟩, "rate limited", rfl, rfl⟩, ⟨⟨429, 1⟩, "rate limited", rfl, rfl⟩, rfl⟩⟩

/-- C15 (as stated, refuted): every call fails with status 500; `UpdateLastViewed`
and `UpdateChannelsTeam` make one remote call and return the handler's error
`StatusCode error`, the same for the remote errors `connection refused` and
`internal error`, and equal to neither. -/
theorem giveUp_drops_remote_error :
    UpdateLastViewed ⟨exBrokenRemote "connection refused", exHandleRatelimit, 0⟩ exStore 3 []
        "town" = some (some "StatusCode error", [Call.ViewChannel "u1" "town"]) ∧
    UpdateLastViewed ⟨exBrokenRemote "internal error", exHandleRatelimit, 0⟩ exStore 3 []
        "town" = some (some "StatusCode error", [Call.ViewChannel "u1" "town"]) ∧
    (UpdateChannelsTeam ⟨exBrokenRemote "connection refused", exHandleRatelimit, 0⟩ 3 exStore []
        "t1").map (fun o => (o.err, o.trace)) =
      some (some "StatusCode error", [Call.GetChannelsForTeamForUser "t1" "u1"]) ∧
    (exBrokenRemote "connection refused").ViewChannel [] "u1" "town" =
      .fail ⟨500, 0⟩ "connection refused" ∧
    (exBrokenRemote "connection refused").GetChannelsForTeamForUser [] "t1" "u1" =
      .fail ⟨500, 0⟩ "connection refused" := by
  decide

/-- C15 (amended): when the first remote call of `UpdateLastViewed` or of
`UpdateChannelsTeam` fails with a response on which `HandleRatelimit` gives up
with error `e`, the operation makes exactly that one call and returns `e`,
whatever the error of the remote call was; `UpdateChannelsTeam` then leaves the
store as it was. -/
theorem giveUp_returns_handler_error (env : Env) (m : Client) (fuel : Nat) (tr : Trace) :
    (∀ channelID resp err e,
      env.remote.ViewChannel tr m.UserId channelID = .fail resp err →
      env.HandleRatelimit "ViewChannel" resp = some e →
      UpdateLastViewed env m (fuel + 1) tr channelID =
        some (some e, tr ++ [Call.ViewChannel m.UserId channelID])) ∧
    (∀ teamID resp err e,
      env.remote.GetChannelsForTeamForUser tr teamID m.UserId = .fail resp err →
      env.HandleRatelimit "GetChannelsForTeamForUser" resp = some e →
      UpdateChannelsTeam env (fuel + 1) m tr teamID =
        some ⟨m, tr ++ [Call.GetChannelsForTeamForUser teamID m.UserId], some e⟩) := by
  constructor
  · intro channelID resp err e ha hr
    unfold UpdateLastViewed
    rw [retryLoop_giveUp env _ _ _ fuel tr resp err e ha hr]
  · intro teamID resp err e ha hr
    unfold UpdateChannelsTeam fetchJoined
    rw [retryLoop_giveUp env _ _ _ fuel tr resp err e ha hr]

theorem giveUp_returns_handler_error_witness :
    UpdateLastViewed ⟨exBrokenRemote "connection refused", exHandleRatelimit, 0⟩ exStore 1 []
        "town" = some (some "StatusCode error", [Call.ViewChannel "u1" "town"]) ∧
    UpdateChannelsTeam ⟨exBrokenRemote "connection refused", exHandleRatelimit, 0⟩ 1 exStore []
        "t1" = some ⟨exStore, [Call.GetChannelsForTeamForUser "t1" "u1"],
          some "StatusCode error"⟩ :=
  ⟨(giveUp_returns_handler_error ⟨exBrokenRemote "connection refused", exHandleRatelimit, 0⟩
      exStore 0 []).1 "town" ⟨500, 0⟩ "connection refused" "StatusCode error" rfl rfl,
   (giveUp_returns_handler_error ⟨exBrokenRemote "connection refused", exHandleRatelimit, 0⟩
      exStore 0 []).2 "t1" ⟨500, 0⟩ "connection refused" "StatusCode error" rfl rfl⟩

end Matterclient
